import Mathlib

/-!
# Verification of the LimboAI `TreeSearch` engine (editor/tree_search.cpp)

Shallow embedding of the tree-search / filter / highlight engine of the
LimboAI behaviour-tree editor plugin, together with proofs about it.

Modelling conventions:
* Godot `String` values are `List Char` (`GString`); `String.to_lower` is
  modelled character-wise by `Char.toLower` (the claims only exercise ASCII).
* `TreeItem *` handles are identified by their path from the root
  (`Path = List Nat`, the list of child indices); pointer values, which the
  C++ code sorts its vectors by, are modelled by an ambient address
  assignment `addr : Path → Nat`.
* `HashMap`s become functions into `Option`; Godot `Vector`s become lists.
* The mutable presentation state of the tree widget and the private fields
  of `TreeSearch` are bundled into one explicit state record that every
  operation threads.
-/

set_option autoImplicit false

namespace TreeSearchModel

abbrev GString := List Char

abbrev Path := List Nat

/-- `#define UPPER_BOUND (1 << 15)` — sentinel used to initialise the lower
bound in `_substring_bounds`. -/
def UPPER_BOUND : Int := 32768

/-- `TreeSearch::StringSearchIndices` — result of `_substring_bounds`
(fields default to the "no hit" value `-1`). -/
structure StringSearchIndices where
  lower : Int := -1
  upper : Int := -1
deriving DecidableEq, Repr

/-- `StringSearchIndices::hit()`: `0 <= lower && lower < upper`. -/
def StringSearchIndices.hit (s : StringSearchIndices) : Bool :=
  decide (0 ≤ s.lower) && decide (s.lower < s.upper)

/-- Model of Godot `String::to_lower` (character-wise ASCII lowering). -/
def toLowerStr (s : GString) : GString :=
  s.map Char.toLower

/-- `is_case_insensitive = (p_search_mask == p_search_mask.to_lower())`. -/
def maskInsensitive (mask : GString) : Bool :=
  mask = toLowerStr mask

/-- Case-processing applied to the searchable string and to each word:
lowercase it exactly when the search is case-insensitive. -/
def procStr (insensitive : Bool) (s : GString) : GString :=
  if insensitive then toLowerStr s else s

/-- Model of Godot `String::split(" ")`: split on the space character,
keeping empty parts. -/
def splitSpace (s : GString) : List GString :=
  s.foldr
    (fun c acc =>
      if c = ' ' then [] :: acc
      else
        match acc with
        | [] => [[c]]
        | w :: ws => (c :: w) :: ws)
    [[]]

/-- Scanning loop of `String::find`, with explicit fuel (`hay.length + 1 - i`
at the outer call) so that the recursion is structural and kernel-reducible.
When the fuel runs out the position `i` already exceeds `hay.length`, so the
fit test would fail anyway and `-1` is returned either way. -/
def findFromAux (hay needle : GString) : Nat → Nat → Int
  | 0, _ => -1
  | fuel + 1, i =>
    if hay.length < i + needle.length then -1
    else if needle.isPrefixOf (hay.drop i) then (i : Int)
    else findFromAux hay needle fuel (i + 1)

/-- Model of Godot `String::find(what, from)`: index of the first occurrence
of `needle` at position `≥ i`, or `-1` when there is none.  An occurrence at
`j` means `needle` is a prefix of `hay.drop j` (so it must fit inside
`hay`). -/
def findFrom (hay needle : GString) (i : Nat) : Int :=
  findFromAux hay needle (hay.length + 1 - i) i

/-- The word loop of `TreeSearch::_substring_bounds`: for each non-empty
word, find it in the (already case-processed) searchable string starting at
the running cursor; on failure return the default (no-hit) indices; on
success move the cursor to the *found position* (not past the word) and
extend the accumulated bounds. -/
def wordLoop (searchable : GString) (insensitive : Bool) :
    List GString → Nat → StringSearchIndices → StringSearchIndices
  | [], _, res => res
  | w :: ws, pos, res =>
    if w = [] then
      wordLoop searchable insensitive ws pos res
    else
      let wordProcessed := procStr insensitive w
      let found := findFrom searchable wordProcessed pos
      if found < 0 then
        {}
      else
        wordLoop searchable insensitive ws found.toNat
          { lower := min res.lower found,
            upper := max res.upper (found + (w.length : Int)) }

/-- `TreeSearch::_substring_bounds(p_searchable, p_search_mask)`.
Initialises the result to `(UPPER_BOUND, 0)`, returns it unchanged for an
empty mask; otherwise auto-detects case sensitivity (`mask == mask.to_lower()`),
case-processes the searchable string, and runs the word loop over the
space-split mask with cursor `0`. -/
def substring_bounds (searchable mask : GString) : StringSearchIndices :=
  let res : StringSearchIndices := { lower := UPPER_BOUND, upper := 0 }
  if mask = [] then res
  else
    let insensitive := maskInsensitive mask
    let searchableProcessed := procStr insensitive searchable
    wordLoop searchableProcessed insensitive (splitSpace mask) 0 res

/-- Abbreviation for writing concrete Godot strings. -/
def gs (s : String) : GString := s.toList

/-- `needle` occurs in `hay` starting at position `j`. -/
def occursAt (hay needle : GString) (j : Nat) : Prop :=
  needle <+: hay.drop j

instance (hay needle : GString) (j : Nat) : Decidable (occursAt hay needle j) := by
  unfold occursAt
  infer_instance

theorem occursAt_bound {hay needle : GString} {j : Nat} (hn : needle ≠ [])
    (h : occursAt hay needle j) : j + needle.length ≤ hay.length := by
  unfold occursAt at h
  have hl := h.length_le
  rw [List.length_drop] at hl
  by_cases hj : hay.length ≤ j
  · rw [List.drop_eq_nil_of_le hj] at h
    exact absurd (List.prefix_nil.mp h) hn
  · omega

theorem findFromAux_spec (hay needle : GString) (hn : needle ≠ []) :
    ∀ (fuel i : Nat), hay.length + 1 ≤ fuel + i →
      (findFromAux hay needle fuel i = -1 ∧ ∀ j, i ≤ j → ¬ occursAt hay needle j) ∨
      (∃ j : Nat, findFromAux hay needle fuel i = (j : Int) ∧ i ≤ j ∧
        occursAt hay needle j ∧ ∀ k, i ≤ k → k < j → ¬ occursAt hay needle k) := by
  intro fuel
  induction fuel with
  | zero =>
    intro i hi
    left
    refine ⟨rfl, fun j hj hocc => ?_⟩
    have hb := occursAt_bound hn hocc
    have hlen : 0 < needle.length := List.length_pos.mpr hn
    omega
  | succ fuel ih =>
    intro i hi
    by_cases hguard : hay.length < i + needle.length
    · left
      refine ⟨by simp [findFromAux, hguard], fun j hj hocc => ?_⟩
      have hb := occursAt_bound hn hocc
      omega
    · by_cases hpre : needle.isPrefixOf (hay.drop i)
      · right
        refine ⟨i, ?_, le_refl i, List.isPrefixOf_iff_prefix.mp hpre, fun k hk hk' => absurd hk (by omega)⟩
        simp [findFromAux, hguard, hpre]
      · have hstep : findFromAux hay needle (fuel + 1) i = findFromAux hay needle fuel (i + 1) := by
          simp [findFromAux, hguard, hpre]
        have hocc_i : ¬ occursAt hay needle i := fun h => hpre (List.isPrefixOf_iff_prefix.mpr h)
        rcases ih (i + 1) (by omega) with ⟨heq, hnone⟩ | ⟨j, heq, hij, hocc, hmin⟩
        · left
          refine ⟨hstep.trans heq, fun j hj => ?_⟩
          rcases Nat.eq_or_lt_of_le hj with rfl | hj'
          · exact hocc_i
          · exact hnone j hj'
        · right
          refine ⟨j, hstep.trans heq, by omega, hocc, fun k hk hk' => ?_⟩
          rcases Nat.eq_or_lt_of_le hk with rfl | hk''
          · exact hocc_i
          · exact hmin k hk'' hk'

theorem findFrom_spec (hay needle : GString) (hn : needle ≠ []) (i : Nat) :
    (findFrom hay needle i = -1 ∧ ∀ j, i ≤ j → ¬ occursAt hay needle j) ∨
    (∃ j : Nat, findFrom hay needle i = (j : Int) ∧ i ≤ j ∧
      occursAt hay needle j ∧ ∀ k, i ≤ k → k < j → ¬ occursAt hay needle k) :=
  findFromAux_spec hay needle hn (hay.length + 1 - i) i (by omega)

/-- `findFrom` returns exactly the least occurrence position `≥ i`. -/
theorem findFrom_eq_of {hay needle : GString} (hn : needle ≠ []) {i j : Nat}
    (hij : i ≤ j) (hocc : occursAt hay needle j)
    (hmin : ∀ k, i ≤ k → k < j → ¬ occursAt hay needle k) :
    findFrom hay needle i = (j : Int) := by
  rcases findFrom_spec hay needle hn i with ⟨_, hnone⟩ | ⟨j', heq, hij', hocc', hmin'⟩
  · exact absurd hocc (hnone j hij)
  · have : j' = j := by
      rcases lt_trichotomy j' j with h | h | h
      · exact absurd hocc' (hmin j' hij' h)
      · exact h
      · exact absurd hocc (hmin' j hij h)
    rw [heq, this]

theorem splitSpace_cons (c : Char) (s : GString) :
    splitSpace (c :: s) =
      (if c = ' ' then [] :: splitSpace s
       else
         match splitSpace s with
         | [] => [[c]]
         | w :: ws => (c :: w) :: ws) := rfl

theorem splitSpace_all_space {m : GString} (hm : ∀ c ∈ m, c = ' ') :
    ∀ w ∈ splitSpace m, w = [] := by
  induction m with
  | nil =>
    intro w hw
    simp only [splitSpace, List.foldr_nil, List.mem_singleton] at hw
    exact hw
  | cons c rest ih =>
    intro w hw
    have hc : c = ' ' := hm c (by simp)
    rw [splitSpace_cons, if_pos hc] at hw
    rcases List.mem_cons.mp hw with rfl | hw'
    · rfl
    · exact ih (fun d hd => hm d (by simp [hd])) w hw'

theorem splitSpace_no_space {s : GString} (hs : ' ' ∉ s) : splitSpace s = [s] := by
  induction s with
  | nil => rfl
  | cons c rest ih =>
    have hc : c ≠ ' ' := fun h => hs (by simp [h])
    rw [splitSpace_cons, if_neg hc, ih (fun h => hs (by simp [h]))]

theorem wordLoop_all_empty (searchable : GString) (insensitive : Bool) :
    ∀ (ws : List GString), (∀ w ∈ ws, w = []) →
      ∀ (pos : Nat) (res : StringSearchIndices),
        wordLoop searchable insensitive ws pos res = res := by
  intro ws
  induction ws with
  | nil => intro _ pos res; rfl
  | cons w rest ih =>
    intro h pos res
    have hw : w = [] := h w (by simp)
    subst hw
    simp only [wordLoop, if_pos rfl]
    exact ih (fun d hd => h d (by simp [hd])) pos res

/-- C8: for every label, an empty query gives a no-hit, and a query made of
only spaces (all tokens empty) also gives a no-hit; the word loop simply
skips every empty token and the sentinel-initialised bounds `(32768, 0)`
fail the `hit()` test. -/
theorem c8_empty_whitespace_query_no_hit (L m : GString) (hm : ∀ c ∈ m, c = ' ') :
    (substring_bounds L []).hit = false ∧ (substring_bounds L m).hit = false := by
  constructor
  · rfl
  · by_cases hm0 : m = []
    · subst hm0; rfl
    · unfold substring_bounds
      rw [if_neg hm0, wordLoop_all_empty _ _ _ (splitSpace_all_space hm)]
      rfl

/-- Witness for C8 at `L = "Wait"`, `m = "  "`. -/
theorem c8_empty_whitespace_query_no_hit_witness :
    (∀ c ∈ gs "  ", c = ' ') ∧
      ((substring_bounds (gs "Wait") []).hit = false ∧
        (substring_bounds (gs "Wait") (gs "  ")).hit = false) :=
  ⟨by decide, c8_empty_whitespace_query_no_hit (gs "Wait") (gs "  ") (by decide)⟩

/-- C3 counterexample: on `("TimeLimit 2 sec", "limit 2 sec")` the code
returns `lower = 4, upper = 15` (the exclusive end offset of the last word
`"sec"`), not the pair `(4, 14)` stated by the claim. -/
theorem c3_counterexample :
    substring_bounds (gs "TimeLimit 2 sec") (gs "limit 2 sec") = { lower := 4, upper := 15 } ∧
      substring_bounds (gs "TimeLimit 2 sec") (gs "limit 2 sec") ≠ { lower := 4, upper := 14 } := by
  decide

/-- C3 (amended): `substring_bounds("TimeLimit 2 sec", "limit 2 sec")` is a
hit with `lower = 4` and `upper = 15` (exclusive end; the matched text spans
positions 4–14 inclusive); `"LimiT 2 SEC"` is a no-hit (mixed case forces
case-sensitive matching); `"Limit sec 2"` is a no-hit (words out of order);
and the query `"timelimit limit"` is a hit with bounds `(0, 9)`, showing
that after a word is found the cursor becomes the *found position* — the
next word may start inside the previous word's span. -/
theorem c3_substring_bounds_examples :
    (substring_bounds (gs "TimeLimit 2 sec") (gs "limit 2 sec") = { lower := 4, upper := 15 } ∧
      (substring_bounds (gs "TimeLimit 2 sec") (gs "limit 2 sec")).hit = true) ∧
    (substring_bounds (gs "TimeLimit 2 sec") (gs "LimiT 2 SEC")).hit = false ∧
    (substring_bounds (gs "TimeLimit 2 sec") (gs "Limit sec 2")).hit = false ∧
    (substring_bounds (gs "TimeLimit 2 sec") (gs "timelimit limit") = { lower := 0, upper := 9 } ∧
      (substring_bounds (gs "TimeLimit 2 sec") (gs "timelimit limit")).hit = true) := by
  decide

theorem wordLoop_single (searchable : GString) (ins : Bool) (W : GString) (hW : W ≠ [])
    (pos : Nat) (res : StringSearchIndices) :
    wordLoop searchable ins [W] pos res =
      (if findFrom searchable (procStr ins W) pos < 0 then {}
       else { lower := min res.lower (findFrom searchable (procStr ins W) pos),
              upper := max res.upper (findFrom searchable (procStr ins W) pos + (W.length : Int)) }) := by
  by_cases h : findFrom searchable (procStr ins W) pos < 0
  · simp [wordLoop, hW, h]
  · simp [wordLoop, hW, h]

theorem procStr_length (ins : Bool) (s : GString) : (procStr ins s).length = s.length := by
  cases ins <;> simp [procStr, toLowerStr]

theorem procStr_ne_nil (ins : Bool) {s : GString} (hs : s ≠ []) : procStr ins s ≠ [] := by
  cases ins <;> simp [procStr, toLowerStr, hs]

/-- Unfolding of `_substring_bounds` for a single-word mask. -/
theorem substring_bounds_single (L W : GString) (hW : W ≠ []) (hsp : ' ' ∉ W) :
    substring_bounds L W =
      (if findFrom (procStr (maskInsensitive W) L) (procStr (maskInsensitive W) W) 0 < 0 then {}
       else { lower := min UPPER_BOUND
                (findFrom (procStr (maskInsensitive W) L) (procStr (maskInsensitive W) W) 0),
              upper := max 0
                (findFrom (procStr (maskInsensitive W) L) (procStr (maskInsensitive W) W) 0
                  + (W.length : Int)) }) := by
  simp only [substring_bounds, if_neg hW]
  rw [splitSpace_no_space hsp, wordLoop_single _ _ _ hW]

/-- C6 (amended): for every label `L` and single-word query `W`, *provided
the label is at most 32768 characters long*, `substring_bounds L W` hits iff
the case-processed word occurs as a contiguous substring of the
case-processed label, and the returned bounds are the first occurrence's
start offset and (exclusive) end offset.  (Without the length bound the
`UPPER_BOUND = 1 << 15` sentinel can clamp the lower bound, see the
counterexample.) -/
theorem c6_single_word_spec (L W : GString) (hW : W ≠ []) (hsp : ' ' ∉ W)
    (hlen : L.length ≤ 32768) :
    ((substring_bounds L W).hit = true ↔
      ∃ j, occursAt (procStr (maskInsensitive W) L) (procStr (maskInsensitive W) W) j) ∧
    (∀ j, occursAt (procStr (maskInsensitive W) L) (procStr (maskInsensitive W) W) j →
      (∀ k, k < j → ¬ occursAt (procStr (maskInsensitive W) L) (procStr (maskInsensitive W) W) k) →
      substring_bounds L W = { lower := (j : Int), upper := (j : Int) + (W.length : Int) }) := by
  have hW'ne : procStr (maskInsensitive W) W ≠ [] := procStr_ne_nil _ hW
  have hsb := substring_bounds_single L W hW hsp
  rcases findFrom_spec (procStr (maskInsensitive W) L) (procStr (maskInsensitive W) W) hW'ne 0 with
    ⟨heq, hnone⟩ | ⟨j, heq, _, hocc, hmin⟩
  · rw [heq] at hsb
    norm_num at hsb
    constructor
    · rw [hsb]
      constructor
      · intro h
        exact absurd h (by decide)
      · rintro ⟨j, hj⟩
        exact absurd hj (hnone j (Nat.zero_le j))
    · intro j hj _
      exact absurd hj (hnone j (Nat.zero_le j))
  · rw [heq] at hsb
    have hjlt : ¬ ((j : Int) < 0) := by omega
    rw [if_neg hjlt] at hsb
    have hWpos : 0 < W.length := List.length_pos.mpr hW
    have hfit := occursAt_bound hW'ne hocc
    rw [procStr_length, procStr_length] at hfit
    have hj32 : j < 32768 := by omega
    have hminUB : min UPPER_BOUND (j : Int) = (j : Int) := by
      rw [min_eq_right]
      unfold UPPER_BOUND
      omega
    have hmax0 : max (0 : Int) ((j : Int) + (W.length : Int)) = (j : Int) + (W.length : Int) := by
      rw [max_eq_right]
      omega
    rw [hminUB, hmax0] at hsb
    constructor
    · rw [hsb]
      constructor
      · intro _
        exact ⟨j, hocc⟩
      · intro _
        simp only [StringSearchIndices.hit]
        refine (Bool.and_eq_true _ _).mpr ⟨by simp, ?_⟩
        simp only [decide_eq_true_eq]
        omega
    · intro j0 hocc0 hmin0
      have : j = j0 := by
        rcases lt_trichotomy j j0 with h | h | h
        · exact absurd hocc (hmin0 j h)
        · exact h
        · exact absurd hocc0 (hmin j0 (Nat.zero_le j0) h)
      rw [hsb, this]

/-- Witness for the amended C6 at `L = "abc"`, `W = "b"`. -/
theorem c6_single_word_spec_witness :
    (gs "b" ≠ [] ∧ ' ' ∉ gs "b" ∧ (gs "abc").length ≤ 32768) ∧
    (((substring_bounds (gs "abc") (gs "b")).hit = true ↔
      ∃ j, occursAt (procStr (maskInsensitive (gs "b")) (gs "abc"))
        (procStr (maskInsensitive (gs "b")) (gs "b")) j) ∧
    (∀ j, occursAt (procStr (maskInsensitive (gs "b")) (gs "abc"))
        (procStr (maskInsensitive (gs "b")) (gs "b")) j →
      (∀ k, k < j → ¬ occursAt (procStr (maskInsensitive (gs "b")) (gs "abc"))
        (procStr (maskInsensitive (gs "b")) (gs "b")) k) →
      substring_bounds (gs "abc") (gs "b") =
        { lower := (j : Int), upper := (j : Int) + ((gs "b").length : Int) })) :=
  ⟨⟨by decide, by decide, by decide⟩,
    c6_single_word_spec (gs "abc") (gs "b") (by decide) (by decide) (by decide)⟩

/-- The label used by the C6 counterexample: 32769 copies of `'a'` followed
by one `'b'`. -/
def bigLabel : GString := List.replicate 32769 'a' ++ ['b']

theorem occursAt_replicate (k j : Nat) :
    occursAt (List.replicate k 'a' ++ ['b']) ['b'] j ↔ j = k := by
  unfold occursAt
  constructor
  · intro h
    by_cases hj : j ≤ k
    · rw [List.drop_append_of_le_length (by simpa using hj), List.drop_replicate] at h
      by_contra hne
      obtain ⟨m, hm⟩ : ∃ m, k - j = m + 1 := ⟨k - j - 1, by omega⟩
      rw [hm, List.replicate_succ] at h
      rcases h with ⟨t, ht⟩
      simp [List.cons_append] at ht
    · exfalso
      have hlen : (List.replicate k 'a' ++ ['b']).length ≤ j := by
        simp
        omega
      rw [List.drop_eq_nil_of_le hlen] at h
      exact absurd (List.prefix_nil.mp h) (by simp)
  · rintro rfl
    rw [List.drop_append_of_le_length (by simp), List.drop_replicate, Nat.sub_self]
    simp

theorem findFrom_replicate (k : Nat) :
    findFrom (List.replicate k 'a' ++ ['b']) ['b'] 0 = (k : Int) := by
  apply findFrom_eq_of (by simp) (Nat.zero_le _)
  · rw [occursAt_replicate]
  · intro j _ hj
    rw [occursAt_replicate]
    omega

/-- C6 counterexample: on `bigLabel` (32770 characters) the single-word
query `"b"` has its unique occurrence at offset 32769, but the reported
lower bound is the clamped sentinel `min (1 << 15) 32769 = 32768`, not the
occurrence's start offset — so "bounds equal that occurrence's start and
end offsets" fails for labels longer than `UPPER_BOUND`. -/
theorem substring_bounds_replicate (k : Nat) :
    substring_bounds (List.replicate k 'a' ++ ['b']) ['b'] =
      { lower := min UPPER_BOUND (k : Int), upper := (k : Int) + 1 } := by
  have hproc : procStr (maskInsensitive ['b']) (List.replicate k 'a' ++ ['b'])
      = List.replicate k 'a' ++ ['b'] := by
    have hins : maskInsensitive ['b'] = true := by decide
    rw [hins]
    simp only [procStr, if_pos rfl, toLowerStr, List.map_append, List.map_replicate]
    norm_num [show Char.toLower 'a' = 'a' from by decide, show Char.toLower 'b' = 'b' from by decide]
  have hprocW : procStr (maskInsensitive ['b']) ['b'] = ['b'] := by decide
  rw [substring_bounds_single _ ['b'] (by simp) (by simp), hproc, hprocW, findFrom_replicate]
  rw [if_neg (by omega)]
  have hmax : max (0 : Int) ((k : Int) + (List.length ['b'] : Int)) = (k : Int) + 1 := by
    simp
    omega
  rw [hmax]

/-- C6 counterexample: on `bigLabel` (32770 characters) the single-word
query `"b"` has its unique occurrence at offset 32769, but the reported
lower bound is the clamped sentinel `min (1 << 15) 32769 = 32768`, not the
occurrence's start offset — so "bounds equal that occurrence's start and
end offsets" fails for labels longer than `UPPER_BOUND`. -/
theorem c6_counterexample :
    substring_bounds bigLabel ['b'] = { lower := 32768, upper := 32770 } ∧
      findFrom bigLabel ['b'] 0 = 32769 := by
  refine ⟨?_, findFrom_replicate 32769⟩
  rw [bigLabel, substring_bounds_replicate 32769]
  norm_num [UPPER_BOUND]

/-! ## Tree topology and widget/search state -/

/-- Tree topology: a `TreeItem` with its column-0 text and ordered children.
`TreeSearch` never creates or destroys items, so the topology is fixed
during one `update_search` call. -/
inductive TNode where
  | mk (label : GString) (children : List TNode)

def TNode.label : TNode → GString
  | .mk l _ => l

def TNode.children : TNode → List TNode
  | .mk _ cs => cs

mutual
/-- Pre-order traversal of a subtree rooted at path `p`, collecting each
item's path and its text — the traversal order shared by
`_update_ordered_tree_items` (before its final sort) and
`_find_matching_entries`: visit the node, then each child's subtree in child
order. -/
def preorderPairs : TNode → Path → List (Path × GString)
  | .mk l cs, p => (p, l) :: preorderPairsList cs p 0

def preorderPairsList : List TNode → Path → Nat → List (Path × GString)
  | [], _, _ => []
  | c :: cs, p, i => preorderPairs c (p ++ [i]) ++ preorderPairsList cs p (i + 1)
end

/-- All items of the tree, in pre-order. -/
def pathsOf (t : TNode) : List Path :=
  (preorderPairs t []).map Prod.fst

/-- Godot `Callable` values that can sit in a cell's custom-draw slot:
the empty callable, the search's own
`callable_mp(this, &TreeSearch::_draw_highlight_item).bind(parent)` (equal
to another such callable iff the bound parent is equal), or some unrelated
host-installed callable. -/
inductive GCallable where
  | empty : GCallable
  | highlightDraw (parent : GCallable) : GCallable
  | external (id : Nat) : GCallable
deriving DecidableEq, Repr

/-- Presentation state of one `TreeItem` (the attributes `TreeSearch`
reads or writes): visibility, collapsed flag, whether the cell mode is
`CELL_MODE_CUSTOM`, and the cell's custom-draw callback.  (`set_text`,
`set_icon`, `set_icon_max_width` are cached and restored to the same values
inside `_highlight_tree_item`, so they are not modelled.) -/
structure ItemState where
  visible : Bool := true
  collapsed : Bool := false
  cellCustom : Bool := false
  drawCB : GCallable := .empty
deriving DecidableEq, Repr

/-- `TreeSearch::TreeSearchMode`. -/
inductive TreeSearchMode where
  | HIGHLIGHT
  | FILTER
deriving DecidableEq, Repr

/-- The `TreeSearchPanel` as `TreeSearch` observes it: `is_visible()`,
`get_text()` and `get_search_mode()`. -/
structure TreeSearchPanel where
  visible : Bool
  text : GString
  mode : TreeSearchMode

/-- The mutable state threaded through `TreeSearch`: its private fields
(`tree_reference`, `ordered_tree_items`, `matching_entries`,
`number_matches`, `callable_cache`, the two recency flags) plus the
externally-owned widget state (per-item presentation attributes and the
tree's current selection). -/
structure SearchState where
  tree_reference : Option TNode := none
  ordered_tree_items : List Path := []
  matching_entries : List Path := []
  number_matches : Path → Option Nat := fun _ => none
  callable_cache : Path → Option GCallable := fun _ => none
  was_searched_recently : Bool := false
  was_filtered_recently : Bool := false
  selected : Option Path := none
  items : Path → ItemState := fun _ => {}

/-- The parent chain of an item, starting at the item itself and ending at
the root `[]` (a `TreeItem`'s parent is obtained by dropping the last child
index; the root has no parent).  Implemented with `p.length` as structural
fuel so that it kernel-reduces. -/
def ancestorChainAux : Nat → Path → List Path
  | 0, p => [p]
  | f + 1, p => p :: ancestorChainAux f p.dropLast

def ancestorChain (p : Path) : List Path :=
  ancestorChainAux p.length p

/-- The `while (item) { ...; item = item->get_parent(); }` loop of
`_update_number_matches`: bump the count of one matching item and of every
ancestor up to the root. -/
def incrChain : List Path → (Path → Option Nat) → (Path → Option Nat)
  | [], nm => nm
  | a :: rest, nm =>
    incrChain rest (fun q => if q = a then some ((nm a).getD 0 + 1) else nm q)

/-- `TreeSearch::_update_number_matches()`: clear the map, then for every
matching entry increment it and all its ancestors. -/
def update_number_matches (matching : List Path) : Path → Option Nat :=
  matching.foldl (fun nm m => incrChain (ancestorChain m) nm) (fun _ => none)

/-- The `first_counting_ancestor` walk of `_filter_tree`: start at the item
itself and follow parents until one has a `number_matches` entry; `none` if
the walk falls off the root.  (`p.length` as structural fuel.) -/
def firstCountingAncestorAux (nm : Path → Option Nat) : Nat → Path → Option Path
  | 0, p => if (nm p).isSome then some p else none
  | f + 1, p => if (nm p).isSome then some p else firstCountingAncestorAux nm f p.dropLast

def first_counting_ancestor (nm : Path → Option Nat) (p : Path) : Option Path :=
  firstCountingAncestorAux nm p.length p

/-- `Vector<TreeItem*>::sort()` sorts the collected handles by raw pointer
value; `addr` is the ambient (injective) pointer assignment.  (The sorting
algorithm itself is irrelevant: on distinct keys every sort produces the
same list, so the introsort of the engine is modelled by a structurally
recursive insertion sort.) -/
def sortByAddr (addr : Path → Nat) (l : List Path) : List Path :=
  List.insertionSort (fun a b => addr a ≤ addr b) l

/-- `_update_ordered_tree_items`: pre-order linearisation followed by the
pointer sort. -/
def update_ordered_tree_items (addr : Path → Nat) (t : TNode) : List Path :=
  sortByAddr addr (pathsOf t)

/-- `_find_matching_entries`: pre-order traversal pushing every item whose
text yields `_substring_bounds(...).hit()`. -/
def find_matching_entries (t : TNode) (mask : GString) : List Path :=
  ((preorderPairs t []).filter (fun pr => (substring_bounds pr.2 mask).hit)).map Prod.fst

/-- `_update_matching_entries` together with the sort performed at the root
of `_find_matching_entries`. -/
def update_matching_entries (addr : Path → Nat) (t : TNode) (mask : GString) : List Path :=
  sortByAddr addr (find_matching_entries t mask)

/-- `TreeItem::set_visible` on one item. -/
def setVisible (p : Path) (b : Bool) (s : SearchState) : SearchState :=
  { s with items := fun q => if q = p then { s.items q with visible := b } else s.items q }

/-- `TreeSearch::_clear_filter()`: make every item of the tree visible. -/
def clear_filter (t : TNode) (s : SearchState) : SearchState :=
  (pathsOf t).foldl (fun s' p => setVisible p true s') s

/-- `TreeSearch::_highlight_tree_item`: skip items with a zero subtree
match count; read the currently-installed draw callback (only when the cell
mode is `CELL_MODE_CUSTOM`) as the parent draw method; skip when the cache
already holds exactly that callable for this item; otherwise build the
bound highlight callable, cache it, install it and switch the cell to
custom mode.  Returns the state and the number of installations (0 or 1). -/
def highlight_tree_item (p : Path) (s : SearchState) : SearchState × Nat :=
  let num_m := (s.number_matches p).getD 0
  if num_m = 0 then (s, 0)
  else
    let parent_draw := if (s.items p).cellCustom then (s.items p).drawCB else GCallable.empty
    if s.callable_cache p = some parent_draw then (s, 0)
    else
      let draw_callback := GCallable.highlightDraw parent_draw
      ({ s with
          callable_cache := fun q => if q = p then some draw_callback else s.callable_cache q,
          items := fun q =>
            if q = p then { s.items q with cellCustom := true, drawCB := draw_callback }
            else s.items q },
        1)

/-- `TreeSearch::_highlight_tree()`: run `_highlight_tree_item` over the
ordered item list, totalling the number of overlay installations. -/
def highlight_tree (s : SearchState) : SearchState × Nat :=
  s.ordered_tree_items.foldl
    (fun acc p =>
      let r := highlight_tree_item p acc.1
      (r.1, acc.2 + r.2))
    (s, 0)

/-- `TreeSearch::_filter_tree`: nothing to do when there are no matching
entries; otherwise hide every item that has no `number_matches` entry and
whose first counting ancestor is missing or is not itself a matching entry.
(The loop reads `number_matches` / `matching_entries`, which it never
modifies, and only calls `set_visible(false)`; `_vector_has_bsearch` on the
sorted vector is modelled by list membership.) -/
def filter_tree (s : SearchState) : SearchState :=
  if s.matching_entries.isEmpty then s
  else
    s.ordered_tree_items.foldl
      (fun s' p =>
        if (s.number_matches p).isSome then s'
        else
          match first_counting_ancestor s.number_matches p with
          | none => setVisible p false s'
          | some a => if s.matching_entries.contains a then s' else setVisible p false s')
      s

/-- `TreeSearch::_clean_callable_cache()`: keep only cache entries whose
item is still in `ordered_tree_items`. -/
def clean_callable_cache (s : SearchState) : SearchState :=
  { s with callable_cache := fun p =>
      if s.ordered_tree_items.contains p then s.callable_cache p else none }

/-- `TreeSearch::update_search(p_tree)`.  Aborts with no state change when
the search panel or the tree pointer is null (`ERR_FAIL_COND`).  Otherwise
stores the tree reference; on an empty query or hidden panel it clears the
filter and the matching entries if a search was recently active, and stops.
On an active search it rebuilds the ordered items, matching entries and
match counts, clears the filter, highlights, then filters (FILTER mode) or
clears a stale filter (HIGHLIGHT mode after a FILTER cycle), and prunes the
callable cache.  The second component counts overlay installations
performed by the highlight pass. -/
def update_search (addr : Path → Nat) (panel : Option TreeSearchPanel)
    (ptree : Option TNode) (s : SearchState) : SearchState × Nat :=
  match panel, ptree with
  | some pan, some t =>
    let s0 := { s with tree_reference := some t }
    if pan.visible = false ∨ pan.text = [] then
      if s0.was_searched_recently then
        ({ clear_filter t s0 with matching_entries := [], was_searched_recently := false }, 0)
      else (s0, 0)
    else
      let s1 := { s0 with was_searched_recently := true }
      let s2 := { s1 with ordered_tree_items := update_ordered_tree_items addr t }
      let s3 := { s2 with matching_entries := update_matching_entries addr t pan.text }
      let s4 := { s3 with number_matches := update_number_matches s3.matching_entries }
      let s5 := clear_filter t s4
      let hi := highlight_tree s5
      let s6 :=
        if pan.mode = TreeSearchMode.FILTER then
          { filter_tree hi.1 with was_filtered_recently := true }
        else if hi.1.was_filtered_recently then
          { clear_filter t hi.1 with was_filtered_recently := false }
        else hi.1
      (clean_callable_cache s6, hi.2)
  | _, _ => (s, 0)

/-- `TreeSearch::_select_item`: un-collapse every strict ancestor of the
item, then select it (deselect-all + set-selected; scrolling is not
modelled). -/
def select_item (p : Path) (s : SearchState) : SearchState :=
  { s with
      items := fun q =>
        if q ∈ ancestorChain p ∧ q ≠ p then { s.items q with collapsed := false }
        else s.items q,
      selected := some p }

/-- `TreeSearch::_select_first_match()`: select the first item of
`ordered_tree_items` that is a matching entry (no-op when there are no
matching entries, or when the scan finds none). -/
def select_first_match (s : SearchState) : SearchState :=
  if s.matching_entries.isEmpty then s
  else
    match s.ordered_tree_items.find? (fun it => s.matching_entries.contains it) with
    | some it => select_item it s
    | none => s

/-- `TreeSearch::_select_next_match()`: no-op without matching entries;
fall back to `_select_first_match` when nothing is selected; otherwise find
the selection's index in `ordered_tree_items` (`-1` when absent), scan from
`MAX(0, idx) + 1` for the next matching entry, and wrap around to
`_select_first_match` when the scan fails. -/
def select_next_match (s : SearchState) : SearchState :=
  if s.matching_entries.isEmpty then s
  else
    match s.selected with
    | none => select_first_match s
    | some sel =>
      let selIdx : Int :=
        match s.ordered_tree_items.findIdx? (fun it => it = sel) with
        | some i => (i : Int)
        | none => -1
      let start := (max 0 selIdx).toNat + 1
      match (s.ordered_tree_items.drop start).find? (fun it => s.matching_entries.contains it) with
      | some it => select_item it s
      | none => select_first_match s

/-! ## Null-collaborator guard -/

/-- C9: `update_search` with a null search panel or a null tree pointer
aborts immediately (`ERR_FAIL_COND(!search_panel || !p_tree)`) before the
`tree_reference = p_tree` assignment, so no internal state and no tree item
is modified. -/
theorem c9_null_guard (addr : Path → Nat) (panel : Option TreeSearchPanel)
    (ptree : Option TNode) (s : SearchState) :
    update_search addr none ptree s = (s, 0) ∧
      update_search addr panel none s = (s, 0) := by
  constructor
  · cases ptree <;> rfl
  · cases panel <;> rfl

/-! ## Characterisations of the visibility-mutating passes -/

theorem setVisible_items (p : Path) (b : Bool) (s : SearchState) (q : Path) :
    (setVisible p b s).items q = if q = p then { s.items q with visible := b } else s.items q := by
  simp [setVisible]

/-- Folding a conditional `set_visible` loop, described pointwise. -/
theorem foldl_cond_setVisible (cond : Path → Bool) (b : Bool) :
    ∀ (l : List Path) (s : SearchState) (q : Path),
      ((l.foldl (fun s' p => if cond p then setVisible p b s' else s') s).items q) =
        if q ∈ l ∧ cond q = true then { s.items q with visible := b } else s.items q := by
  intro l
  induction l with
  | nil => intro s q; simp
  | cons a rest ih =>
    intro s q
    simp only [List.foldl_cons]
    by_cases hca : cond a = true
    · rw [if_pos hca, ih]
      by_cases hqa : q = a
      · subst hqa
        by_cases hqr : q ∈ rest <;> simp [setVisible_items, hca, hqr]
      · by_cases hqr : q ∈ rest <;> simp [setVisible_items, hqa, hqr]
    · rw [if_neg hca, ih]
      by_cases hqa : q = a
      · subst hqa
        by_cases hqr : q ∈ rest <;> simp [hca, hqr]
      · by_cases hqr : q ∈ rest <;> simp [hqa, hqr]

theorem foldl_setVisible_true :
    ∀ (l : List Path) (s : SearchState) (q : Path),
      ((l.foldl (fun s' p => setVisible p true s') s).items q) =
        if q ∈ l then { s.items q with visible := true } else s.items q := by
  intro l
  induction l with
  | nil => intro s q; simp
  | cons a rest ih =>
    intro s q
    simp only [List.foldl_cons]
    rw [ih]
    by_cases hqa : q = a
    · subst hqa
      simp only [setVisible_items, if_pos rfl, List.mem_cons, true_or, if_pos]
      by_cases hqr : q ∈ rest <;> simp [hqr]
    · simp only [setVisible_items, if_neg hqa]
      by_cases hqr : q ∈ rest <;> simp [hqr, hqa]

theorem setVisible_fields (p : Path) (b : Bool) (s : SearchState) :
    (setVisible p b s).tree_reference = s.tree_reference ∧
    (setVisible p b s).ordered_tree_items = s.ordered_tree_items ∧
    (setVisible p b s).matching_entries = s.matching_entries ∧
    (setVisible p b s).number_matches = s.number_matches ∧
    (setVisible p b s).callable_cache = s.callable_cache ∧
    (setVisible p b s).was_searched_recently = s.was_searched_recently ∧
    (setVisible p b s).was_filtered_recently = s.was_filtered_recently ∧
    (setVisible p b s).selected = s.selected := by
  simp [setVisible]

theorem foldl_setVisible_true_fields :
    ∀ (l : List Path) (s : SearchState),
      ((l.foldl (fun s' p => setVisible p true s') s).tree_reference = s.tree_reference ∧
        (l.foldl (fun s' p => setVisible p true s') s).ordered_tree_items = s.ordered_tree_items ∧
        (l.foldl (fun s' p => setVisible p true s') s).matching_entries = s.matching_entries ∧
        (l.foldl (fun s' p => setVisible p true s') s).number_matches = s.number_matches ∧
        (l.foldl (fun s' p => setVisible p true s') s).callable_cache = s.callable_cache ∧
        (l.foldl (fun s' p => setVisible p true s') s).was_searched_recently
          = s.was_searched_recently ∧
        (l.foldl (fun s' p => setVisible p true s') s).was_filtered_recently
          = s.was_filtered_recently ∧
        (l.foldl (fun s' p => setVisible p true s') s).selected = s.selected) := by
  intro l
  induction l with
  | nil => intro s; simp
  | cons a rest ih =>
    intro s
    simp only [List.foldl_cons]
    exact ih (setVisible a true s)

/-- `_clear_filter`: every item of the tree becomes visible; nothing else
changes. -/
theorem clear_filter_items (t : TNode) (s : SearchState) (q : Path) :
    (clear_filter t s).items q =
      if q ∈ pathsOf t then { s.items q with visible := true } else s.items q :=
  foldl_setVisible_true (pathsOf t) s q

theorem clear_filter_fields (t : TNode) (s : SearchState) :
    (clear_filter t s).tree_reference = s.tree_reference ∧
      (clear_filter t s).ordered_tree_items = s.ordered_tree_items ∧
      (clear_filter t s).matching_entries = s.matching_entries ∧
      (clear_filter t s).number_matches = s.number_matches ∧
      (clear_filter t s).callable_cache = s.callable_cache ∧
      (clear_filter t s).was_searched_recently = s.was_searched_recently ∧
      (clear_filter t s).was_filtered_recently = s.was_filtered_recently ∧
      (clear_filter t s).selected = s.selected :=
  foldl_setVisible_true_fields (pathsOf t) s

/-- The hiding condition applied by one `_filter_tree` iteration to item
`p`, as a function of the fields the loop reads (which it never writes):
no `number_matches` entry, and the first counting ancestor missing or not a
matching entry. -/
def filterHides (s : SearchState) (p : Path) : Bool :=
  !(s.number_matches p).isSome &&
    (match first_counting_ancestor s.number_matches p with
     | none => true
     | some a => !s.matching_entries.contains a)

theorem filter_step_eq (s s' : SearchState) (p : Path) :
    (if (s.number_matches p).isSome then s'
     else
       match first_counting_ancestor s.number_matches p with
       | none => setVisible p false s'
       | some a =>
         if s.matching_entries.contains a then s' else setVisible p false s') =
      if filterHides s p = true then setVisible p false s' else s' := by
  by_cases h1 : (s.number_matches p).isSome
  · simp [filterHides, h1]
  · cases hfca : first_counting_ancestor s.number_matches p with
    | none => simp [filterHides, h1, hfca]
    | some a =>
      by_cases h2 : s.matching_entries.contains a <;>
        simp [filterHides, h1, hfca, h2]

/-- `_filter_tree` described pointwise on item states. -/
theorem filter_tree_items (s : SearchState) (q : Path) :
    (filter_tree s).items q =
      if s.matching_entries.isEmpty then s.items q
      else if q ∈ s.ordered_tree_items ∧ filterHides s q = true then
        { s.items q with visible := false }
      else s.items q := by
  unfold filter_tree
  by_cases hm : s.matching_entries.isEmpty
  · simp [hm]
  · rw [if_neg hm, if_neg hm]
    have hbody : (fun (s' : SearchState) (p : Path) =>
        if (s.number_matches p).isSome then s'
        else
          match first_counting_ancestor s.number_matches p with
          | none => setVisible p false s'
          | some a =>
            if s.matching_entries.contains a then s' else setVisible p false s') =
        fun (s' : SearchState) (p : Path) =>
          if filterHides s p = true then setVisible p false s' else s' := by
      funext s' p
      exact filter_step_eq s s' p
    rw [hbody]
    exact foldl_cond_setVisible (filterHides s) false s.ordered_tree_items s q

theorem foldl_filter_fields (s : SearchState) :
    ∀ (l : List Path) (s' : SearchState),
      (((l.foldl (fun s'' p =>
          if filterHides s p = true then setVisible p false s'' else s'') s').tree_reference
            = s'.tree_reference) ∧
        ((l.foldl (fun s'' p =>
          if filterHides s p = true then setVisible p false s'' else s'') s').ordered_tree_items
            = s'.ordered_tree_items) ∧
        ((l.foldl (fun s'' p =>
          if filterHides s p = true then setVisible p false s'' else s'') s').matching_entries
            = s'.matching_entries) ∧
        ((l.foldl (fun s'' p =>
          if filterHides s p = true then setVisible p false s'' else s'') s').number_matches
            = s'.number_matches) ∧
        ((l.foldl (fun s'' p =>
          if filterHides s p = true then setVisible p false s'' else s'') s').callable_cache
            = s'.callable_cache) ∧
        ((l.foldl (fun s'' p =>
          if filterHides s p = true then setVisible p false s'' else s'') s').was_searched_recently
            = s'.was_searched_recently) ∧
        ((l.foldl (fun s'' p =>
          if filterHides s p = true then setVisible p false s'' else s'') s').was_filtered_recently
            = s'.was_filtered_recently) ∧
        ((l.foldl (fun s'' p =>
          if filterHides s p = true then setVisible p false s'' else s'') s').selected
            = s'.selected)) := by
  intro l
  induction l with
  | nil => intro s'; simp
  | cons a rest ih =>
    intro s'
    simp only [List.foldl_cons]
    by_cases hc : filterHides s a = true
    · rw [if_pos hc]
      exact ih (setVisible a false s')
    · rw [if_neg hc]
      exact ih s'

theorem filter_tree_fields (s : SearchState) :
    (filter_tree s).tree_reference = s.tree_reference ∧
      (filter_tree s).ordered_tree_items = s.ordered_tree_items ∧
      (filter_tree s).matching_entries = s.matching_entries ∧
      (filter_tree s).number_matches = s.number_matches ∧
      (filter_tree s).callable_cache = s.callable_cache ∧
      (filter_tree s).was_searched_recently = s.was_searched_recently ∧
      (filter_tree s).was_filtered_recently = s.was_filtered_recently ∧
      (filter_tree s).selected = s.selected := by
  unfold filter_tree
  by_cases hm : s.matching_entries.isEmpty
  · simp [hm]
  · rw [if_neg hm]
    have hbody : (fun (s' : SearchState) (p : Path) =>
        if (s.number_matches p).isSome then s'
        else
          match first_counting_ancestor s.number_matches p with
          | none => setVisible p false s'
          | some a =>
            if s.matching_entries.contains a then s' else setVisible p false s') =
        fun (s' : SearchState) (p : Path) =>
          if filterHides s p = true then setVisible p false s' else s' := by
      funext s' p
      exact filter_step_eq s s' p
    rw [hbody]
    exact foldl_filter_fields s s.ordered_tree_items s

/-- The "parent draw method" `_highlight_tree_item` reads from an item:
its current custom-draw callback when the cell mode is custom, else the
empty callable. -/
def effParent (st : ItemState) : GCallable :=
  if st.cellCustom then st.drawCB else .empty

/-- The cache-hit condition of `_highlight_tree_item`: the cached callable
for the item equals the parent draw method read from the item. -/
def cacheHit (s : SearchState) (p : Path) : Prop :=
  s.callable_cache p = some (effParent (s.items p))

theorem highlight_tree_item_eq (p : Path) (s : SearchState) :
    highlight_tree_item p s =
      if (s.number_matches p).getD 0 = 0 then (s, 0)
      else if s.callable_cache p = some (effParent (s.items p)) then (s, 0)
      else
        ({ s with
            callable_cache := fun q =>
              if q = p then some (GCallable.highlightDraw (effParent (s.items p)))
              else s.callable_cache q,
            items := fun q =>
              if q = p then
                { s.items q with
                    cellCustom := true,
                    drawCB := GCallable.highlightDraw (effParent (s.items p)) }
              else s.items q },
          1) := rfl

theorem highlight_tree_item_visible (p : Path) (s : SearchState) (q : Path) :
    ((highlight_tree_item p s).1.items q).visible = (s.items q).visible := by
  rw [highlight_tree_item_eq]
  by_cases h1 : (s.number_matches p).getD 0 = 0
  · simp [h1]
  · by_cases h2 : s.callable_cache p = some (effParent (s.items p))
    · simp [h1, h2]
    · by_cases hq : q = p <;> simp [h1, h2, hq]

theorem highlight_tree_item_fields (p : Path) (s : SearchState) :
    ((highlight_tree_item p s).1.tree_reference = s.tree_reference ∧
      (highlight_tree_item p s).1.ordered_tree_items = s.ordered_tree_items ∧
      (highlight_tree_item p s).1.matching_entries = s.matching_entries ∧
      (highlight_tree_item p s).1.number_matches = s.number_matches ∧
      (highlight_tree_item p s).1.was_searched_recently = s.was_searched_recently ∧
      (highlight_tree_item p s).1.was_filtered_recently = s.was_filtered_recently ∧
      (highlight_tree_item p s).1.selected = s.selected) := by
  rw [highlight_tree_item_eq]
  by_cases h1 : (s.number_matches p).getD 0 = 0
  · simp [h1]
  · by_cases h2 : s.callable_cache p = some (effParent (s.items p)) <;> simp [h1, h2]

theorem highlight_tree_item_skip {p : Path} {s : SearchState}
    (h : (s.number_matches p).getD 0 = 0 ∨ cacheHit s p) :
    highlight_tree_item p s = (s, 0) := by
  rw [highlight_tree_item_eq]
  rcases h with h | h
  · rw [if_pos h]
  · unfold cacheHit at h
    by_cases h1 : (s.number_matches p).getD 0 = 0
    · rw [if_pos h1]
    · rw [if_neg h1, if_pos h]

theorem highlight_tree_item_cacheHit_mono {p : Path} {s : SearchState} {q : Path}
    (h : cacheHit s q) : cacheHit (highlight_tree_item p s).1 q := by
  rw [highlight_tree_item_eq]
  by_cases h1 : (s.number_matches p).getD 0 = 0
  · rw [if_pos h1]
    exact h
  · rw [if_neg h1]
    by_cases h2 : s.callable_cache p = some (effParent (s.items p))
    · rw [if_pos h2]
      exact h
    · rw [if_neg h2]
      by_cases hq : q = p
      · subst hq
        exact absurd h h2
      · unfold cacheHit at h ⊢
        simpa [hq] using h

theorem highlight_tree_item_establish {p : Path} {s : SearchState}
    (h : (s.number_matches p).getD 0 ≠ 0) :
    cacheHit (highlight_tree_item p s).1 p := by
  rw [highlight_tree_item_eq, if_neg h]
  by_cases h2 : s.callable_cache p = some (effParent (s.items p))
  · rw [if_pos h2]
    exact h2
  · rw [if_neg h2]
    unfold cacheHit effParent
    simp

theorem highlight_fold_visible :
    ∀ (l : List Path) (acc : SearchState × Nat) (q : Path),
      (((l.foldl (fun acc p =>
          let r := highlight_tree_item p acc.1
          (r.1, acc.2 + r.2)) acc).1.items q).visible) = ((acc.1.items q).visible) := by
  intro l
  induction l with
  | nil => intro acc q; rfl
  | cons a rest ih =>
    intro acc q
    simp only [List.foldl_cons]
    rw [ih]
    exact highlight_tree_item_visible a acc.1 q

theorem highlight_fold_fields :
    ∀ (l : List Path) (acc : SearchState × Nat),
      (((l.foldl (fun acc p =>
            let r := highlight_tree_item p acc.1
            (r.1, acc.2 + r.2)) acc).1.tree_reference) = acc.1.tree_reference ∧
        ((l.foldl (fun acc p =>
            let r := highlight_tree_item p acc.1
            (r.1, acc.2 + r.2)) acc).1.ordered_tree_items) = acc.1.ordered_tree_items ∧
        ((l.foldl (fun acc p =>
            let r := highlight_tree_item p acc.1
            (r.1, acc.2 + r.2)) acc).1.matching_entries) = acc.1.matching_entries ∧
        ((l.foldl (fun acc p =>
            let r := highlight_tree_item p acc.1
            (r.1, acc.2 + r.2)) acc).1.number_matches) = acc.1.number_matches ∧
        ((l.foldl (fun acc p =>
            let r := highlight_tree_item p acc.1
            (r.1, acc.2 + r.2)) acc).1.was_searched_recently) = acc.1.was_searched_recently ∧
        ((l.foldl (fun acc p =>
            let r := highlight_tree_item p acc.1
            (r.1, acc.2 + r.2)) acc).1.was_filtered_recently) = acc.1.was_filtered_recently ∧
        ((l.foldl (fun acc p =>
            let r := highlight_tree_item p acc.1
            (r.1, acc.2 + r.2)) acc).1.selected) = acc.1.selected) := by
  intro l
  induction l with
  | nil => intro acc; exact ⟨rfl, rfl, rfl, rfl, rfl, rfl, rfl⟩
  | cons a rest ih =>
    intro acc
    simp only [List.foldl_cons]
    obtain ⟨i1, i2, i3, i4, i5, i6, i7⟩ :=
      ih (((highlight_tree_item a acc.1).1, acc.2 + (highlight_tree_item a acc.1).2))
    obtain ⟨j1, j2, j3, j4, j5, j6, j7⟩ := highlight_tree_item_fields a acc.1
    exact ⟨i1.trans j1, i2.trans j2, i3.trans j3, i4.trans j4, i5.trans j5,
      i6.trans j6, i7.trans j7⟩

theorem highlight_fold_cacheHit (nm : Path → Option Nat) :
    ∀ (l : List Path) (acc : SearchState × Nat), acc.1.number_matches = nm →
      (((l.foldl (fun acc p =>
          let r := highlight_tree_item p acc.1
          (r.1, acc.2 + r.2)) acc).1.number_matches = nm) ∧
        (∀ q, cacheHit acc.1 q →
          cacheHit (l.foldl (fun acc p =>
            let r := highlight_tree_item p acc.1
            (r.1, acc.2 + r.2)) acc).1 q) ∧
        (∀ p ∈ l, (nm p).getD 0 ≠ 0 →
          cacheHit (l.foldl (fun acc p =>
            let r := highlight_tree_item p acc.1
            (r.1, acc.2 + r.2)) acc).1 p)) := by
  intro l
  induction l with
  | nil =>
    intro acc hacc
    exact ⟨hacc, fun q h => h, fun p hp => absurd hp (List.not_mem_nil p)⟩
  | cons a rest ih =>
    intro acc hacc
    simp only [List.foldl_cons]
    have hacc' : ((highlight_tree_item a acc.1).1, acc.2 + (highlight_tree_item a acc.1).2).1.number_matches = nm := by
      obtain ⟨_, _, _, h4, _, _, _⟩ := highlight_tree_item_fields a acc.1
      rw [h4, hacc]
    obtain ⟨k1, k2, k3⟩ :=
      ih (((highlight_tree_item a acc.1).1, acc.2 + (highlight_tree_item a acc.1).2)) hacc'
    refine ⟨k1, ?_, ?_⟩
    · intro q hq
      exact k2 q (highlight_tree_item_cacheHit_mono hq)
    · intro p hp hcount
      rcases List.mem_cons.mp hp with rfl | hp'
      · refine k2 p (highlight_tree_item_establish ?_)
        rw [hacc]
        exact hcount
      · exact k3 p hp' hcount

theorem highlight_fold_skip :
    ∀ (l : List Path) (acc : SearchState × Nat),
      (∀ p ∈ l, (acc.1.number_matches p).getD 0 = 0 ∨ cacheHit acc.1 p) →
      (l.foldl (fun acc p =>
        let r := highlight_tree_item p acc.1
        (r.1, acc.2 + r.2)) acc) = acc := by
  intro l
  induction l with
  | nil => intro acc _; rfl
  | cons a rest ih =>
    intro acc h
    simp only [List.foldl_cons]
    have ha : highlight_tree_item a acc.1 = (acc.1, 0) :=
      highlight_tree_item_skip (h a (by simp))
    rw [ha]
    exact ih acc (fun p hp => h p (by simp [hp]))

theorem highlight_tree_visible (s : SearchState) (q : Path) :
    ((highlight_tree s).1.items q).visible = (s.items q).visible :=
  highlight_fold_visible s.ordered_tree_items (s, 0) q

theorem highlight_tree_fields (s : SearchState) :
    ((highlight_tree s).1.tree_reference = s.tree_reference ∧
      (highlight_tree s).1.ordered_tree_items = s.ordered_tree_items ∧
      (highlight_tree s).1.matching_entries = s.matching_entries ∧
      (highlight_tree s).1.number_matches = s.number_matches ∧
      (highlight_tree s).1.was_searched_recently = s.was_searched_recently ∧
      (highlight_tree s).1.was_filtered_recently = s.was_filtered_recently ∧
      (highlight_tree s).1.selected = s.selected) :=
  highlight_fold_fields s.ordered_tree_items (s, 0)

theorem highlight_tree_cacheHit (s : SearchState) :
    (∀ q, cacheHit s q → cacheHit (highlight_tree s).1 q) ∧
      (∀ p ∈ s.ordered_tree_items, (s.number_matches p).getD 0 ≠ 0 →
        cacheHit (highlight_tree s).1 p) := by
  obtain ⟨_, h2, h3⟩ :=
    highlight_fold_cacheHit s.number_matches s.ordered_tree_items (s, 0) rfl
  exact ⟨h2, h3⟩

theorem highlight_tree_skip (s : SearchState)
    (h : ∀ p ∈ s.ordered_tree_items, (s.number_matches p).getD 0 = 0 ∨ cacheHit s p) :
    highlight_tree s = (s, 0) :=
  highlight_fold_skip s.ordered_tree_items (s, 0) h

/-! ## Ancestor chains and match counts -/

theorem ancestorChain_nil : ancestorChain [] = [[]] := rfl

theorem ancestorChain_cons (x : Nat) (xs : Path) :
    ancestorChain (x :: xs) = (x :: xs) :: ancestorChain (x :: xs).dropLast := by
  unfold ancestorChain
  have h : (x :: xs).dropLast.length = xs.length := by
    rw [List.length_dropLast]
    rfl
  rw [h]
  rfl

theorem ancestorChain_ne_nil (p : Path) (hp : p ≠ []) :
    ancestorChain p = p :: ancestorChain p.dropLast := by
  cases p with
  | nil => exact absurd rfl hp
  | cons x xs => exact ancestorChain_cons x xs

/-- Membership in the parent chain is exactly the prefix relation on
paths. -/
theorem mem_ancestorChain : ∀ (p q : Path), q ∈ ancestorChain p ↔ q <+: p := by
  intro p
  induction p using List.reverseRecOn with
  | nil =>
    intro q
    rw [ancestorChain_nil]
    simp [List.prefix_nil]
  | append_singleton ys y ih =>
    intro q
    rw [ancestorChain_ne_nil _ (by simp), List.dropLast_concat]
    simp only [List.mem_cons, ih]
    rw [List.prefix_concat_iff]

theorem ancestorChain_nodup : ∀ (p : Path), (ancestorChain p).Nodup := by
  intro p
  induction p using List.reverseRecOn with
  | nil =>
    rw [ancestorChain_nil]
    simp
  | append_singleton ys y ih =>
    rw [ancestorChain_ne_nil _ (by simp), List.dropLast_concat]
    refine List.Nodup.cons ?_ ih
    intro hmem
    have hpre : (ys ++ [y]) <+: ys := (mem_ancestorChain ys (ys ++ [y])).mp hmem
    have := hpre.length_le
    simp at this

theorem incrChain_apply :
    ∀ (l : List Path), l.Nodup → ∀ (nm : Path → Option Nat) (q : Path),
      incrChain l nm q = if q ∈ l then some ((nm q).getD 0 + 1) else nm q := by
  intro l
  induction l with
  | nil => intro _ nm q; simp [incrChain]
  | cons a rest ih =>
    intro hnd nm q
    have hanotin : a ∉ rest := (List.nodup_cons.mp hnd).1
    have hrest : rest.Nodup := (List.nodup_cons.mp hnd).2
    simp only [incrChain]
    rw [ih hrest]
    by_cases hqr : q ∈ rest
    · have hqa : q ≠ a := fun h => hanotin (h ▸ hqr)
      simp [hqr, hqa]
    · by_cases hqa : q = a
      · subst hqa
        simp [hqr]
      · simp [hqr, hqa]

theorem foldl_incr_apply :
    ∀ (ms : List Path) (nm : Path → Option Nat) (q : Path),
      (ms.foldl (fun nm m => incrChain (ancestorChain m) nm) nm) q =
        (if ms.countP (fun m => decide (q <+: m)) = 0 then nm q
         else some ((nm q).getD 0 + ms.countP (fun m => decide (q <+: m)))) := by
  intro ms
  induction ms with
  | nil => intro nm q; simp
  | cons m rest ih =>
    intro nm q
    simp only [List.foldl_cons]
    rw [ih, List.countP_cons]
    have hincr := incrChain_apply (ancestorChain m) (ancestorChain_nodup m) nm q
    by_cases hqm : q <+: m
    · have hmem : q ∈ ancestorChain m := (mem_ancestorChain m q).mpr hqm
      rw [hincr, if_pos hmem]
      have hdec : (if decide (q <+: m) = true then 1 else 0) = 1 := by simp [hqm]
      rw [hdec]
      rcases Nat.eq_zero_or_pos (rest.countP (fun m => decide (q <+: m))) with hc | hc
      · rw [hc]
        simp
      · rw [if_neg (by omega), if_neg (by omega)]
        simp only [Option.getD_some]
        congr 1
        omega
    · have hmem : q ∉ ancestorChain m := fun hc => hqm ((mem_ancestorChain m q).mp hc)
      rw [hincr, if_neg hmem]
      have hdec : (if decide (q <+: m) = true then 1 else 0) = 0 := by simp [hqm]
      rw [hdec]
      simp

/-- Closed form of `_update_number_matches`: an item's entry is the number
of matching entries that lie in its subtree (have it as a path prefix),
with *no entry at all* when that number is zero. -/
theorem update_number_matches_apply (matching : List Path) (q : Path) :
    update_number_matches matching q =
      (if matching.countP (fun m => decide (q <+: m)) = 0 then none
       else some (matching.countP (fun m => decide (q <+: m)))) := by
  unfold update_number_matches
  rw [foldl_incr_apply]
  by_cases hc : matching.countP (fun m => decide (q <+: m)) = 0 <;> simp [hc]

theorem update_number_matches_perm {l₁ l₂ : List Path} (h : l₁.Perm l₂) (q : Path) :
    update_number_matches l₁ q = update_number_matches l₂ q := by
  rw [update_number_matches_apply, update_number_matches_apply,
    h.countP_eq (fun m => decide (q <+: m))]

theorem firstCountingAncestorAux_congr {nm₁ nm₂ : Path → Option Nat}
    (h : ∀ x, nm₁ x = nm₂ x) :
    ∀ (f : Nat) (p : Path),
      firstCountingAncestorAux nm₁ f p = firstCountingAncestorAux nm₂ f p := by
  intro f
  induction f with
  | zero => intro p; simp [firstCountingAncestorAux, h p]
  | succ f ih => intro p; simp [firstCountingAncestorAux, h p, ih]

theorem first_counting_ancestor_congr {nm₁ nm₂ : Path → Option Nat}
    (h : ∀ x, nm₁ x = nm₂ x) (p : Path) :
    first_counting_ancestor nm₁ p = first_counting_ancestor nm₂ p :=
  firstCountingAncestorAux_congr h p.length p

/-! ## The sorted views -/

theorem sortByAddr_perm (addr : Path → Nat) (l : List Path) :
    (sortByAddr addr l).Perm l :=
  List.perm_insertionSort _ l

theorem mem_sortByAddr (addr : Path → Nat) (l : List Path) (q : Path) :
    q ∈ sortByAddr addr l ↔ q ∈ l :=
  (sortByAddr_perm addr l).mem_iff

theorem mem_update_ordered_tree_items (addr : Path → Nat) (t : TNode) (q : Path) :
    q ∈ update_ordered_tree_items addr t ↔ q ∈ pathsOf t :=
  mem_sortByAddr addr (pathsOf t) q

theorem mem_update_matching_entries (addr : Path → Nat) (t : TNode) (mask : GString)
    (q : Path) :
    q ∈ update_matching_entries addr t mask ↔ q ∈ find_matching_entries t mask :=
  mem_sortByAddr addr (find_matching_entries t mask) q

/-! ## Unfolding `update_search` -/

theorem clean_callable_cache_eq (s : SearchState) :
    clean_callable_cache s =
      { s with callable_cache := fun p =>
          if s.ordered_tree_items.contains p then s.callable_cache p else none } := rfl

theorem update_search_inactive (addr : Path → Nat) (pan : TreeSearchPanel) (t : TNode)
    (s : SearchState) (h : pan.visible = false ∨ pan.text = []) :
    update_search addr (some pan) (some t) s =
      (if s.was_searched_recently = true then
        ({ clear_filter t { s with tree_reference := some t } with
            matching_entries := [], was_searched_recently := false }, 0)
       else ({ s with tree_reference := some t }, 0)) := by
  simp only [update_search]
  rw [if_pos h]

/-- The state `update_search`'s active branch has built just before
`_clear_filter`: tree reference stored, recency flag set, ordered items,
matching entries and match counts recomputed. -/
def activeBase (addr : Path → Nat) (t : TNode) (mask : GString) (s : SearchState) :
    SearchState :=
  { s with
      tree_reference := some t,
      was_searched_recently := true,
      ordered_tree_items := update_ordered_tree_items addr t,
      matching_entries := update_matching_entries addr t mask,
      number_matches := update_number_matches (update_matching_entries addr t mask) }

theorem update_search_active (addr : Path → Nat) (pan : TreeSearchPanel) (t : TNode)
    (s : SearchState) (hvis : pan.visible = true) (htext : pan.text ≠ []) :
    update_search addr (some pan) (some t) s =
      (clean_callable_cache
        (if pan.mode = TreeSearchMode.FILTER then
          { filter_tree
              (highlight_tree (clear_filter t (activeBase addr t pan.text s))).1 with
              was_filtered_recently := true }
        else if (highlight_tree (clear_filter t (activeBase addr t pan.text s))).1.was_filtered_recently then
          { clear_filter t
              (highlight_tree (clear_filter t (activeBase addr t pan.text s))).1 with
              was_filtered_recently := false }
        else (highlight_tree (clear_filter t (activeBase addr t pan.text s))).1),
       (highlight_tree (clear_filter t (activeBase addr t pan.text s))).2) := by
  have hcond : ¬(pan.visible = false ∨ pan.text = []) := by
    simp [hvis, htext]
  simp only [update_search]
  rw [if_neg hcond]
  rfl

theorem clean_callable_cache_fields (x : SearchState) :
    (clean_callable_cache x).tree_reference = x.tree_reference ∧
      (clean_callable_cache x).ordered_tree_items = x.ordered_tree_items ∧
      (clean_callable_cache x).matching_entries = x.matching_entries ∧
      (clean_callable_cache x).number_matches = x.number_matches ∧
      (clean_callable_cache x).was_searched_recently = x.was_searched_recently ∧
      (clean_callable_cache x).selected = x.selected ∧
      (clean_callable_cache x).items = x.items :=
  ⟨rfl, rfl, rfl, rfl, rfl, rfl, rfl⟩

/-- Shared shape of the three mode branches after the highlight pass: all
fields except `items`, `callable_cache` and `was_filtered_recently` come
through unchanged from the pre-clear state `s4`. -/
theorem pipeline_fields (t : TNode) (P : Prop) [Decidable P] (s4 : SearchState) :
    ((clean_callable_cache
        (if P then
          { filter_tree (highlight_tree (clear_filter t s4)).1 with
              was_filtered_recently := true }
        else if (highlight_tree (clear_filter t s4)).1.was_filtered_recently then
          { clear_filter t (highlight_tree (clear_filter t s4)).1 with
              was_filtered_recently := false }
        else (highlight_tree (clear_filter t s4)).1)).tree_reference = s4.tree_reference ∧
      (clean_callable_cache
        (if P then
          { filter_tree (highlight_tree (clear_filter t s4)).1 with
              was_filtered_recently := true }
        else if (highlight_tree (clear_filter t s4)).1.was_filtered_recently then
          { clear_filter t (highlight_tree (clear_filter t s4)).1 with
              was_filtered_recently := false }
        else (highlight_tree (clear_filter t s4)).1)).ordered_tree_items
          = s4.ordered_tree_items ∧
      (clean_callable_cache
        (if P then
          { filter_tree (highlight_tree (clear_filter t s4)).1 with
              was_filtered_recently := true }
        else if (highlight_tree (clear_filter t s4)).1.was_filtered_recently then
          { clear_filter t (highlight_tree (clear_filter t s4)).1 with
              was_filtered_recently := false }
        else (highlight_tree (clear_filter t s4)).1)).matching_entries
          = s4.matching_entries ∧
      (clean_callable_cache
        (if P then
          { filter_tree (highlight_tree (clear_filter t s4)).1 with
              was_filtered_recently := true }
        else if (highlight_tree (clear_filter t s4)).1.was_filtered_recently then
          { clear_filter t (highlight_tree (clear_filter t s4)).1 with
              was_filtered_recently := false }
        else (highlight_tree (clear_filter t s4)).1)).number_matches = s4.number_matches ∧
      (clean_callable_cache
        (if P then
          { filter_tree (highlight_tree (clear_filter t s4)).1 with
              was_filtered_recently := true }
        else if (highlight_tree (clear_filter t s4)).1.was_filtered_recently then
          { clear_filter t (highlight_tree (clear_filter t s4)).1 with
              was_filtered_recently := false }
        else (highlight_tree (clear_filter t s4)).1)).was_searched_recently
          = s4.was_searched_recently ∧
      (clean_callable_cache
        (if P then
          { filter_tree (highlight_tree (clear_filter t s4)).1 with
              was_filtered_recently := true }
        else if (highlight_tree (clear_filter t s4)).1.was_filtered_recently then
          { clear_filter t (highlight_tree (clear_filter t s4)).1 with
              was_filtered_recently := false }
        else (highlight_tree (clear_filter t s4)).1)).selected = s4.selected) := by
  obtain ⟨c1, c2, c3, c4, c5, c6, c7, c8⟩ := clear_filter_fields t s4
  obtain ⟨h1, h2, h3, h4, h5, h6, h7⟩ := highlight_tree_fields (clear_filter t s4)
  by_cases hP : P
  · rw [if_pos hP]
    obtain ⟨f1, f2, f3, f4, f5, f6, f7, f8⟩ :=
      filter_tree_fields (highlight_tree (clear_filter t s4)).1
    exact ⟨f1.trans (h1.trans c1), f2.trans (h2.trans c2), f3.trans (h3.trans c3),
      f4.trans (h4.trans c4), f6.trans (h5.trans c6), f8.trans (h7.trans c8)⟩
  · rw [if_neg hP]
    by_cases hw : (highlight_tree (clear_filter t s4)).1.was_filtered_recently
    · rw [if_pos hw]
      obtain ⟨d1, d2, d3, d4, d5, d6, d7, d8⟩ :=
        clear_filter_fields t (highlight_tree (clear_filter t s4)).1
      exact ⟨d1.trans (h1.trans c1), d2.trans (h2.trans c2), d3.trans (h3.trans c3),
        d4.trans (h4.trans c4), d6.trans (h5.trans c6), d8.trans (h7.trans c8)⟩
    · rw [if_neg hw]
      exact ⟨h1.trans c1, h2.trans c2, h3.trans c3, h4.trans c4, h5.trans c6, h7.trans c8⟩

/-- The active branch of `update_search`: resulting values of the recomputed
bookkeeping fields. -/
theorem update_search_active_props (addr : Path → Nat) (pan : TreeSearchPanel) (t : TNode)
    (s : SearchState) (hvis : pan.visible = true) (htext : pan.text ≠ []) :
    ((update_search addr (some pan) (some t) s).1.tree_reference = some t) ∧
      ((update_search addr (some pan) (some t) s).1.ordered_tree_items
        = update_ordered_tree_items addr t) ∧
      ((update_search addr (some pan) (some t) s).1.matching_entries
        = update_matching_entries addr t pan.text) ∧
      ((update_search addr (some pan) (some t) s).1.number_matches
        = update_number_matches (update_matching_entries addr t pan.text)) ∧
      ((update_search addr (some pan) (some t) s).1.was_searched_recently = true) ∧
      ((update_search addr (some pan) (some t) s).1.selected = s.selected) := by
  rw [update_search_active addr pan t s hvis htext]
  exact pipeline_fields t (pan.mode = TreeSearchMode.FILTER)
    (activeBase addr t pan.text s)

/-! ## C1: the clearing cycle -/

/-- C1 counterexample: on the one-node tree labelled `"a"`, an active
`HIGHLIGHT` update with query `"a"` installs a paint overlay on the root;
the following empty-query update restores visibility but does *not* remove
the overlay: the root's cell is still in custom-draw mode with the
highlight callable installed, and the callable cache still holds it. -/
theorem c1_counterexample :
    (((update_search (fun _ => 0) (some ⟨true, [], TreeSearchMode.HIGHLIGHT⟩)
        (some (TNode.mk ['a'] []))
        (update_search (fun _ => 0) (some ⟨true, ['a'], TreeSearchMode.HIGHLIGHT⟩)
          (some (TNode.mk ['a'] [])) {}).1).1.items []).cellCustom = true) ∧
      (((update_search (fun _ => 0) (some ⟨true, [], TreeSearchMode.HIGHLIGHT⟩)
        (some (TNode.mk ['a'] []))
        (update_search (fun _ => 0) (some ⟨true, ['a'], TreeSearchMode.HIGHLIGHT⟩)
          (some (TNode.mk ['a'] [])) {}).1).1.items []).drawCB
          = GCallable.highlightDraw GCallable.empty) ∧
      ((update_search (fun _ => 0) (some ⟨true, [], TreeSearchMode.HIGHLIGHT⟩)
        (some (TNode.mk ['a'] []))
        (update_search (fun _ => 0) (some ⟨true, ['a'], TreeSearchMode.HIGHLIGHT⟩)
          (some (TNode.mk ['a'] [])) {}).1).1.callable_cache []
          = some (GCallable.highlightDraw GCallable.empty)) := by
  decide

/-- C1 (amended): after an active update cycle, an empty-query (or hidden
panel) update restores every tree node's visibility to visible, empties the
matching entries and resets the recently-searched flag — but it does *not*
remove the paint overlays the search installed: every item's cell mode and
custom-draw callback, the callable cache and the (now stale)
`number_matches` map are left untouched. -/
theorem c1_clearing (addr : Path → Nat) (pan1 pan2 : TreeSearchPanel) (t : TNode)
    (s : SearchState) (hvis1 : pan1.visible = true) (htext1 : pan1.text ≠ [])
    (h2 : pan2.visible = false ∨ pan2.text = []) :
    (∀ q ∈ pathsOf t,
      (((update_search addr (some pan2) (some t)
          (update_search addr (some pan1) (some t) s).1).1.items q).visible = true)) ∧
    ((update_search addr (some pan2) (some t)
        (update_search addr (some pan1) (some t) s).1).1.matching_entries = []) ∧
    ((update_search addr (some pan2) (some t)
        (update_search addr (some pan1) (some t) s).1).1.was_searched_recently = false) ∧
    ((update_search addr (some pan2) (some t)
        (update_search addr (some pan1) (some t) s).1).1.callable_cache
      = (update_search addr (some pan1) (some t) s).1.callable_cache) ∧
    ((update_search addr (some pan2) (some t)
        (update_search addr (some pan1) (some t) s).1).1.number_matches
      = (update_search addr (some pan1) (some t) s).1.number_matches) ∧
    (∀ q,
      (((update_search addr (some pan2) (some t)
          (update_search addr (some pan1) (some t) s).1).1.items q).cellCustom
        = (((update_search addr (some pan1) (some t) s).1.items q).cellCustom)) ∧
      (((update_search addr (some pan2) (some t)
          (update_search addr (some pan1) (some t) s).1).1.items q).drawCB
        = (((update_search addr (some pan1) (some t) s).1.items q).drawCB))) := by
  obtain ⟨_, _, _, _, hws, _⟩ := update_search_active_props addr pan1 t s hvis1 htext1
  rw [update_search_inactive addr pan2 t _ h2, if_pos hws]
  refine ⟨?_, rfl, rfl, ?_, ?_, ?_⟩
  · intro q hq
    show ((clear_filter t
        { (update_search addr (some pan1) (some t) s).1 with
            tree_reference := some t }).items q).visible = true
    rw [clear_filter_items, if_pos hq]
  · exact (clear_filter_fields t _).2.2.2.2.1
  · exact (clear_filter_fields t _).2.2.2.1
  · intro q
    constructor
    · show ((clear_filter t
          { (update_search addr (some pan1) (some t) s).1 with
              tree_reference := some t }).items q).cellCustom = _
      rw [clear_filter_items]
      by_cases hq : q ∈ pathsOf t <;> simp [hq]
    · show ((clear_filter t
          { (update_search addr (some pan1) (some t) s).1 with
              tree_reference := some t }).items q).drawCB = _
      rw [clear_filter_items]
      by_cases hq : q ∈ pathsOf t <;> simp [hq]

/-- Witness for the amended C1 on the three-node tree, with a `FILTER`
first cycle. -/
theorem c1_clearing_witness :
    ((⟨true, ['a'], TreeSearchMode.FILTER⟩ : TreeSearchPanel).visible = true ∧
      (⟨true, ['a'], TreeSearchMode.FILTER⟩ : TreeSearchPanel).text ≠ [] ∧
      ((⟨false, ['a'], TreeSearchMode.FILTER⟩ : TreeSearchPanel).visible = false ∨
        (⟨false, ['a'], TreeSearchMode.FILTER⟩ : TreeSearchPanel).text = [])) ∧
    (∀ q ∈ pathsOf (TNode.mk ['x'] [TNode.mk ['a'] [], TNode.mk ['y'] []]),
      (((update_search (fun p => p.headD 7) (some ⟨false, ['a'], TreeSearchMode.FILTER⟩)
          (some (TNode.mk ['x'] [TNode.mk ['a'] [], TNode.mk ['y'] []]))
          (update_search (fun p => p.headD 7) (some ⟨true, ['a'], TreeSearchMode.FILTER⟩)
            (some (TNode.mk ['x'] [TNode.mk ['a'] [], TNode.mk ['y'] []])) {}).1).1.items q).visible
        = true)) := by
  constructor
  · exact ⟨rfl, by decide, Or.inl rfl⟩
  · exact (c1_clearing (fun p => p.headD 7) ⟨true, ['a'], TreeSearchMode.FILTER⟩
      ⟨false, ['a'], TreeSearchMode.FILTER⟩ (TNode.mk ['x'] [TNode.mk ['a'] [], TNode.mk ['y'] []])
      {} rfl (by decide) (Or.inl rfl)).1

/-! ## The canonical (sort-independent) filtering predicate -/

theorem contains_eq_decide_mem (l : List Path) (a : Path) :
    l.contains a = decide (a ∈ l) := by
  by_cases h : a ∈ l
  · rw [decide_eq_true h]
    exact List.elem_iff.mpr h
  · rw [decide_eq_false h]
    cases hct : List.elem a l with
    | false => exact hct
    | true => exact absurd (List.elem_iff.mp hct) h

theorem contains_perm {l₁ l₂ : List Path} (h : l₁.Perm l₂) (a : Path) :
    l₁.contains a = l₂.contains a := by
  rw [contains_eq_decide_mem, contains_eq_decide_mem]
  exact decide_eq_decide.mpr h.mem_iff

theorem nm_sorted_eq (addr : Path → Nat) (t : TNode) (mask : GString) (q : Path) :
    update_number_matches (update_matching_entries addr t mask) q =
      update_number_matches (find_matching_entries t mask) q :=
  update_number_matches_perm (sortByAddr_perm addr (find_matching_entries t mask)) q

/-- `first_counting_ancestor` computed from the canonical (pre-sort)
matching entries. -/
def nearestCountingAncestor (t : TNode) (mask : GString) (q : Path) : Option Path :=
  first_counting_ancestor (update_number_matches (find_matching_entries t mask)) q

/-- The canonical form of the hiding decision `_filter_tree` makes for one
item during an active FILTER cycle, expressed via the pre-sort matching
entries (the pointer sort only permutes the vectors, which no component of
the decision observes). -/
def filterHidden (t : TNode) (mask : GString) (q : Path) : Bool :=
  !(find_matching_entries t mask).isEmpty &&
    (!(update_number_matches (find_matching_entries t mask) q).isSome &&
      (match nearestCountingAncestor t mask q with
       | none => true
       | some a => !(find_matching_entries t mask).contains a))

theorem filterHides_canonical (addr : Path → Nat) (t : TNode) (mask : GString)
    (s' : SearchState)
    (hmat : s'.matching_entries = update_matching_entries addr t mask)
    (hnm : s'.number_matches = update_number_matches (update_matching_entries addr t mask))
    (q : Path) :
    filterHides s' q =
      (!(update_number_matches (find_matching_entries t mask) q).isSome &&
        (match nearestCountingAncestor t mask q with
         | none => true
         | some a => !(find_matching_entries t mask).contains a)) := by
  unfold filterHides
  rw [hmat, hnm]
  have hfca : first_counting_ancestor
      (update_number_matches (update_matching_entries addr t mask)) q =
      nearestCountingAncestor t mask q :=
    first_counting_ancestor_congr (nm_sorted_eq addr t mask) q
  rw [nm_sorted_eq addr t mask q, hfca]
  have hcont : ∀ a, (update_matching_entries addr t mask).contains a
      = (find_matching_entries t mask).contains a :=
    fun a => contains_perm (sortByAddr_perm addr (find_matching_entries t mask)) a
  simp only [hcont]

/-- The visibility closed form: after an active `update_search` cycle, an
item of the tree is visible unless the mode is FILTER and the canonical
hiding predicate holds; items outside the tree keep their visibility.  In
particular the resulting visibility of every tree item is a function of the
tree, the query and the mode alone — any externally-set visibility is
overwritten. -/
theorem update_visible_closed (addr : Path → Nat) (pan : TreeSearchPanel) (t : TNode)
    (s : SearchState) (hvis : pan.visible = true) (htext : pan.text ≠ []) (q : Path) :
    (((update_search addr (some pan) (some t) s).1.items q).visible) =
      (if q ∈ pathsOf t then
        !(decide (pan.mode = TreeSearchMode.FILTER) && filterHidden t pan.text q)
      else (s.items q).visible) := by
  rw [update_search_active addr pan t s hvis htext]
  have hiemp : (highlight_tree (clear_filter t (activeBase addr t pan.text s))).1.matching_entries
      = update_matching_entries addr t pan.text :=
    ((highlight_tree_fields (clear_filter t (activeBase addr t pan.text s))).2.2.1).trans
      ((clear_filter_fields t (activeBase addr t pan.text s)).2.2.1)
  have hiord : (highlight_tree (clear_filter t (activeBase addr t pan.text s))).1.ordered_tree_items
      = update_ordered_tree_items addr t :=
    ((highlight_tree_fields (clear_filter t (activeBase addr t pan.text s))).2.1).trans
      ((clear_filter_fields t (activeBase addr t pan.text s)).2.1)
  have hinm : (highlight_tree (clear_filter t (activeBase addr t pan.text s))).1.number_matches
      = update_number_matches (update_matching_entries addr t pan.text) :=
    ((highlight_tree_fields (clear_filter t (activeBase addr t pan.text s))).2.2.2.1).trans
      ((clear_filter_fields t (activeBase addr t pan.text s)).2.2.2.1)
  have hivis : ∀ r,
      (((highlight_tree (clear_filter t (activeBase addr t pan.text s))).1.items r).visible)
        = (((clear_filter t (activeBase addr t pan.text s)).items r).visible) :=
    fun r => highlight_tree_visible (clear_filter t (activeBase addr t pan.text s)) r
  have hclearvis : ∀ r,
      (((clear_filter t (activeBase addr t pan.text s)).items r).visible)
        = (if r ∈ pathsOf t then true else ((s.items r).visible)) := by
    intro r
    rw [clear_filter_items]
    by_cases hr : r ∈ pathsOf t
    · simp [hr]
    · rw [if_neg hr, if_neg hr]
      rfl
  by_cases hm : pan.mode = TreeSearchMode.FILTER
  · rw [if_pos hm]
    show (((filter_tree
        (highlight_tree (clear_filter t (activeBase addr t pan.text s))).1).items q).visible) = _
    rw [filter_tree_items]
    by_cases hempty : (highlight_tree (clear_filter t (activeBase addr t pan.text s))).1.matching_entries.isEmpty
    · rw [if_pos hempty]
      have hcempty : (find_matching_entries t pan.text).isEmpty = true := by
        rw [← (sortByAddr_perm addr (find_matching_entries t pan.text)).isEmpty_eq]
        rw [hiemp] at hempty
        exact hempty
      have hfh : filterHidden t pan.text q = false := by
        unfold filterHidden
        rw [hcempty]
        rfl
      rw [hivis, hclearvis, hfh]
      by_cases hq : q ∈ pathsOf t <;> simp [hq]
    · rw [if_neg hempty]
      have hcnempty : (find_matching_entries t pan.text).isEmpty = false := by
        rw [← (sortByAddr_perm addr (find_matching_entries t pan.text)).isEmpty_eq]
        rw [hiemp] at hempty
        exact Bool.not_eq_true _ ▸ (by simpa using hempty)
      have hhides := filterHides_canonical addr t pan.text _ hiemp hinm q
      by_cases hq : q ∈ pathsOf t
      · have hqord : q ∈ (highlight_tree (clear_filter t (activeBase addr t pan.text s))).1.ordered_tree_items := by
          rw [hiord]
          exact (mem_update_ordered_tree_items addr t q).mpr hq
        rw [if_pos hq]
        have hfh : filterHidden t pan.text q =
            (!(update_number_matches (find_matching_entries t pan.text) q).isSome &&
              (match nearestCountingAncestor t pan.text q with
               | none => true
               | some a => !(find_matching_entries t pan.text).contains a)) := by
          unfold filterHidden
          rw [hcnempty]
          rfl
        by_cases hhq : filterHides
            (highlight_tree (clear_filter t (activeBase addr t pan.text s))).1 q = true
        · rw [if_pos ⟨hqord, hhq⟩]
          have : filterHidden t pan.text q = true := by
            rw [hfh, ← hhides]
            exact hhq
          rw [hm, this]
          rfl
        · rw [if_neg (fun hc => hhq hc.2)]
          have : filterHidden t pan.text q = false := by
            rw [hfh, ← hhides]
            exact Bool.not_eq_true _ ▸ (by simpa using hhq)
          rw [hivis, hclearvis, if_pos hq, hm, this]
          rfl
      · have hqord : q ∉ (highlight_tree (clear_filter t (activeBase addr t pan.text s))).1.ordered_tree_items := by
          rw [hiord]
          exact fun hc => hq ((mem_update_ordered_tree_items addr t q).mp hc)
        rw [if_neg (fun hc => hqord hc.1), if_neg hq, hivis, hclearvis, if_neg hq]
  · rw [if_neg hm]
    have hrhs : (if q ∈ pathsOf t then
        !(decide (pan.mode = TreeSearchMode.FILTER) && filterHidden t pan.text q)
      else ((s.items q).visible)) =
        (if q ∈ pathsOf t then true else ((s.items q).visible)) := by
      rw [decide_eq_false hm]
      by_cases hq : q ∈ pathsOf t <;> simp [hq]
    rw [hrhs]
    by_cases hw : (highlight_tree (clear_filter t (activeBase addr t pan.text s))).1.was_filtered_recently
    · rw [if_pos hw]
      show (((clear_filter t
          (highlight_tree (clear_filter t (activeBase addr t pan.text s))).1).items q).visible) = _
      rw [clear_filter_items]
      by_cases hq : q ∈ pathsOf t
      · rw [if_pos hq, if_pos hq]
      · rw [if_neg hq, if_neg hq, hivis, hclearvis, if_neg hq]
    · rw [if_neg hw]
      show (((highlight_tree (clear_filter t (activeBase addr t pan.text s))).1.items q).visible) = _
      rw [hivis, hclearvis]

/-! ## C10: unconditional visibility reset -/

/-- C10: every active `update_search` cycle first makes every tree item
visible (`_clear_filter`) and then re-hides only what FILTER mode dictates,
so each item's resulting visibility is `!(mode = FILTER && hidden)` — a
function of the tree, query and mode alone, independent of any visibility
the host set beforehand; in particular after a HIGHLIGHT cycle every item
is visible. -/
theorem c10_visibility_reset (addr : Path → Nat) (pan : TreeSearchPanel) (t : TNode)
    (s : SearchState) (hvis : pan.visible = true) (htext : pan.text ≠ []) :
    (∀ q ∈ pathsOf t,
      (((update_search addr (some pan) (some t) s).1.items q).visible) =
        !(decide (pan.mode = TreeSearchMode.FILTER) && filterHidden t pan.text q)) ∧
    (pan.mode = TreeSearchMode.HIGHLIGHT →
      ∀ q ∈ pathsOf t,
        (((update_search addr (some pan) (some t) s).1.items q).visible) = true) := by
  constructor
  · intro q hq
    rw [update_visible_closed addr pan t s hvis htext q, if_pos hq]
  · intro hm q hq
    rw [update_visible_closed addr pan t s hvis htext q, if_pos hq, hm]
    rfl

/-- Witness for C10: a host-hidden item is forced visible by a HIGHLIGHT
cycle. -/
theorem c10_visibility_reset_witness :
    ((⟨true, ['a'], TreeSearchMode.HIGHLIGHT⟩ : TreeSearchPanel).visible = true ∧
      (⟨true, ['a'], TreeSearchMode.HIGHLIGHT⟩ : TreeSearchPanel).text ≠ []) ∧
    ((⟨true, ['a'], TreeSearchMode.HIGHLIGHT⟩ : TreeSearchPanel).mode
        = TreeSearchMode.HIGHLIGHT →
      ∀ q ∈ pathsOf (TNode.mk ['x'] [TNode.mk ['a'] []]),
        (((update_search (fun p => p.length)
            (some ⟨true, ['a'], TreeSearchMode.HIGHLIGHT⟩)
            (some (TNode.mk ['x'] [TNode.mk ['a'] []]))
            { items := fun _ =>
                { visible := false, collapsed := false, cellCustom := false,
                  drawCB := GCallable.empty } }).1.items q).visible) = true) :=
  ⟨⟨rfl, by decide⟩,
    (c10_visibility_reset (fun p => p.length) ⟨true, ['a'], TreeSearchMode.HIGHLIGHT⟩
      (TNode.mk ['x'] [TNode.mk ['a'] []])
      { items := fun _ =>
          { visible := false, collapsed := false, cellCustom := false,
            drawCB := GCallable.empty } } rfl (by decide)).2⟩

/-! ## C2: what FILTER mode hides -/

/-- Number of matching items inside the subtree rooted at `q` (the item
itself plus its descendants — the items whose path has `q` as a prefix). -/
def subtreeMatchCount (t : TNode) (mask : GString) (q : Path) : Nat :=
  (preorderPairs t []).countP
    (fun pr => decide (q <+: pr.1) && (substring_bounds pr.2 mask).hit)

theorem count_matching_eq (t : TNode) (mask : GString) (q : Path) :
    (find_matching_entries t mask).countP (fun m => decide (q <+: m)) =
      subtreeMatchCount t mask q := by
  unfold find_matching_entries subtreeMatchCount
  rw [List.countP_map, List.countP_filter]
  apply List.countP_congr
  intro pr _
  simp [Function.comp]

theorem nm_canonical_eq (t : TNode) (mask : GString) (q : Path) :
    update_number_matches (find_matching_entries t mask) q =
      (if subtreeMatchCount t mask q = 0 then none
       else some (subtreeMatchCount t mask q)) := by
  rw [update_number_matches_apply, count_matching_eq]

/-- C2 counterexample: tree = root `"a"` with one child `"b"`, query
`"a"`, FILTER mode.  The child's subtree (just itself) contains zero
matching items, yet after the update the child is *not* hidden — its first
counting ancestor (the root) is itself a direct match, and `_filter_tree`
leaves the whole subtree of a direct match visible.  This falsifies
"hidden iff the subtree contains zero matching nodes". -/
theorem c2_counterexample :
    (((update_search (fun p => p.length) (some ⟨true, ['a'], TreeSearchMode.FILTER⟩)
        (some (TNode.mk ['a'] [TNode.mk ['b'] []])) {}).1.items [0]).visible = true) ∧
      subtreeMatchCount (TNode.mk ['a'] [TNode.mk ['b'] []]) ['a'] [0] = 0 ∧
      (((update_search (fun p => p.length) (some ⟨true, ['a'], TreeSearchMode.FILTER⟩)
        (some (TNode.mk ['a'] [TNode.mk ['b'] []])) {}).1.matching_entries ≠ [])) := by
  decide

/-- C2 (amended): after an active FILTER cycle, a tree item is hidden iff
the query matches at least one item, the item's own subtree contains zero
matches, *and* the nearest ancestor-or-self holding a positive subtree
match count is not itself a directly matching item (the code keeps the
entire subtree of a direct match visible); when the query matches no item
at all, no item is hidden. -/
theorem c2_filter_visibility (addr : Path → Nat) (pan : TreeSearchPanel) (t : TNode)
    (s : SearchState) (hvis : pan.visible = true) (htext : pan.text ≠ [])
    (hmode : pan.mode = TreeSearchMode.FILTER) :
    ∀ q ∈ pathsOf t,
      ((((update_search addr (some pan) (some t) s).1.items q).visible = false) ↔
        (find_matching_entries t pan.text ≠ [] ∧
          subtreeMatchCount t pan.text q = 0 ∧
          ∀ a, nearestCountingAncestor t pan.text q = some a →
            (find_matching_entries t pan.text).contains a = false)) ∧
      (find_matching_entries t pan.text = [] →
        (((update_search addr (some pan) (some t) s).1.items q).visible = true)) := by
  intro q hq
  have hclosed := update_visible_closed addr pan t s hvis htext q
  rw [if_pos hq, hmode] at hclosed
  rw [show (decide (TreeSearchMode.FILTER = TreeSearchMode.FILTER)) = true from by decide,
    Bool.true_and] at hclosed
  constructor
  · rw [hclosed]
    constructor
    · intro h
      have hhid : filterHidden t pan.text q = true := by
        cases hfh : filterHidden t pan.text q
        · rw [hfh] at h
          cases h
        · rfl
      unfold filterHidden at hhid
      obtain ⟨hne, hrest⟩ := Bool.and_eq_true_iff.mp hhid
      obtain ⟨hns, hmatch⟩ := Bool.and_eq_true_iff.mp hrest
      refine ⟨?_, ?_, ?_⟩
      · intro hnil
        rw [hnil] at hne
        cases hne
      · rw [nm_canonical_eq] at hns
        by_cases hc : subtreeMatchCount t pan.text q = 0
        · exact hc
        · rw [if_neg hc] at hns
          cases hns
      · intro a ha
        rw [ha] at hmatch
        cases hcon : (find_matching_entries t pan.text).contains a
        · rfl
        · simp [hcon] at hmatch
          exact absurd (List.elem_iff.mp hcon) hmatch
    · rintro ⟨hne, hzero, hanc⟩
      have hhid : filterHidden t pan.text q = true := by
        unfold filterHidden
        refine Bool.and_eq_true_iff.mpr ⟨?_, Bool.and_eq_true_iff.mpr ⟨?_, ?_⟩⟩
        · cases hemp : (find_matching_entries t pan.text).isEmpty
          · rfl
          · exact absurd (List.isEmpty_iff.mp hemp) hne
        · rw [nm_canonical_eq, if_pos hzero]
          rfl
        · cases hnca : nearestCountingAncestor t pan.text q with
          | none => rfl
          | some a =>
            show (!(find_matching_entries t pan.text).contains a) = true
            rw [hanc a hnca]
            rfl
      rw [hhid]
      rfl
  · intro hnil
    rw [hclosed]
    have : filterHidden t pan.text q = false := by
      unfold filterHidden
      rw [hnil]
      rfl
    rw [this]
    rfl

/-- Witness for the amended C2: tree `x(a, y)`, query `"a"` in FILTER mode:
`[1]` (label `y`) is hidden, while the directly-matching `[0]` and the
counting root stay visible. -/
theorem c2_filter_visibility_witness :
    ((⟨true, ['a'], TreeSearchMode.FILTER⟩ : TreeSearchPanel).visible = true ∧
      (⟨true, ['a'], TreeSearchMode.FILTER⟩ : TreeSearchPanel).text ≠ [] ∧
      (⟨true, ['a'], TreeSearchMode.FILTER⟩ : TreeSearchPanel).mode
        = TreeSearchMode.FILTER ∧
      [1] ∈ pathsOf (TNode.mk ['x'] [TNode.mk ['a'] [], TNode.mk ['y'] []])) ∧
    ((((update_search (fun p => p.headD 7)
        (some ⟨true, ['a'], TreeSearchMode.FILTER⟩)
        (some (TNode.mk ['x'] [TNode.mk ['a'] [], TNode.mk ['y'] []])) {}).1.items
          [1]).visible = false) ↔
      (find_matching_entries (TNode.mk ['x'] [TNode.mk ['a'] [], TNode.mk ['y'] []]) ['a']
          ≠ [] ∧
        subtreeMatchCount (TNode.mk ['x'] [TNode.mk ['a'] [], TNode.mk ['y'] []]) ['a'] [1]
          = 0 ∧
        ∀ a, nearestCountingAncestor
            (TNode.mk ['x'] [TNode.mk ['a'] [], TNode.mk ['y'] []]) ['a'] [1] = some a →
          (find_matching_entries (TNode.mk ['x'] [TNode.mk ['a'] [], TNode.mk ['y'] []])
            ['a']).contains a = false)) :=
  ⟨⟨rfl, by decide, rfl, by decide⟩,
    ((c2_filter_visibility (fun p => p.headD 7) ⟨true, ['a'], TreeSearchMode.FILTER⟩
      (TNode.mk ['x'] [TNode.mk ['a'] [], TNode.mk ['y'] []]) {} rfl (by decide) rfl)
      [1] (by decide)).1⟩

/-! ## C4: the shape of the pre-order traversal and `accumulate_counts` -/

theorem preorderPairs_unfold (l : GString) (cs : List TNode) (p : Path) :
    preorderPairs (.mk l cs) p = (p, l) :: preorderPairsList cs p 0 := rfl

theorem preorderPairsList_unfold (c : TNode) (cs : List TNode) (p : Path) (i : Nat) :
    preorderPairsList (c :: cs) p i =
      preorderPairs c (p ++ [i]) ++ preorderPairsList cs p (i + 1) := rfl

mutual
/-- Every pair collected below a node at path `p` has that `p` as a path
prefix (equal for the node itself, strictly longer for descendants). -/
theorem preorderPairs_shape : ∀ (t : TNode) (p : Path) (pr : Path × GString),
    pr ∈ preorderPairs t p → pr.1 = p ∨ ∃ j r, pr.1 = p ++ j :: r
  | .mk l cs, p, pr, hmem => by
    rw [preorderPairs_unfold] at hmem
    rcases List.mem_cons.mp hmem with heq | hmem'
    · left
      rw [heq]
    · right
      obtain ⟨j, r, _, hshape⟩ := preorderPairsList_shape cs p 0 pr hmem'
      exact ⟨j, r, hshape⟩

theorem preorderPairsList_shape : ∀ (cs : List TNode) (p : Path) (i : Nat)
    (pr : Path × GString), pr ∈ preorderPairsList cs p i →
      ∃ j r, i ≤ j ∧ pr.1 = p ++ j :: r
  | [], _, _, _, hmem => absurd hmem (List.not_mem_nil _)
  | c :: cs, p, i, pr, hmem => by
    rw [preorderPairsList_unfold] at hmem
    rcases List.mem_append.mp hmem with h | h
    · rcases preorderPairs_shape c (p ++ [i]) pr h with heq | ⟨j, r, heq⟩
      · exact ⟨i, [], le_refl i, by simpa using heq⟩
      · refine ⟨i, j :: r, le_refl i, ?_⟩
        rw [heq, List.append_assoc]
        rfl
    · obtain ⟨j, r, hij, heq⟩ := preorderPairsList_shape cs p (i + 1) pr h
      exact ⟨j, r, by omega, heq⟩
end

theorem getElem_append_cons (p : Path) (j : Nat) (r : Path) :
    (p ++ j :: r)[p.length]? = some j := by
  rw [List.getElem?_append_right (le_refl p.length)]
  simp

mutual
/-- The collected paths are pairwise distinct: the node's own path is
strictly shorter than every descendant path, and the subtrees of distinct
children are separated by the child index at position `p.length`. -/
theorem preorderPairs_fst_nodup : ∀ (t : TNode) (p : Path),
    ((preorderPairs t p).map Prod.fst).Nodup
  | .mk l cs, p => by
    rw [preorderPairs_unfold, List.map_cons]
    refine List.Nodup.cons ?_ (preorderPairsList_fst_nodup cs p 0)
    intro hmem
    obtain ⟨pr, hpr, hfst⟩ := List.mem_map.mp hmem
    obtain ⟨j, r, _, hshape⟩ := preorderPairsList_shape cs p 0 pr hpr
    rw [hshape] at hfst
    have hlen := congrArg List.length hfst
    simp at hlen

theorem preorderPairsList_fst_nodup : ∀ (cs : List TNode) (p : Path) (i : Nat),
    ((preorderPairsList cs p i).map Prod.fst).Nodup
  | [], _, _ => List.nodup_nil
  | c :: cs, p, i => by
    rw [preorderPairsList_unfold, List.map_append, List.nodup_append]
    refine ⟨preorderPairs_fst_nodup c (p ++ [i]), preorderPairsList_fst_nodup cs p (i + 1), ?_⟩
    intro x hx hx'
    obtain ⟨pr, hpr, rfl⟩ := List.mem_map.mp hx
    obtain ⟨pr', hpr', hfst'⟩ := List.mem_map.mp hx'
    have h1 : pr.1[p.length]? = some i := by
      rcases preorderPairs_shape c (p ++ [i]) pr hpr with heq | ⟨j, r, heq⟩
      · rw [heq]
        exact getElem_append_cons p i []
      · rw [heq, List.append_assoc]
        exact getElem_append_cons p i (j :: r)
    obtain ⟨j', r', hij', heq'⟩ := preorderPairsList_shape cs p (i + 1) pr' hpr'
    have h2 : pr.1[p.length]? = some j' := by
      rw [← hfst', heq']
      exact getElem_append_cons p j' r'
    rw [h1] at h2
    have : i = j' := by
      injection h2
    omega
end

theorem pathsOf_nodup (t : TNode) : (pathsOf t).Nodup :=
  preorderPairs_fst_nodup t []

theorem countP_split (l : List (Path × GString)) (f g : Path × GString → Bool) :
    l.countP f = l.countP (fun pr => f pr && g pr) + l.countP (fun pr => f pr && !g pr) := by
  induction l with
  | nil => rfl
  | cons a rest ih =>
    rw [List.countP_cons, List.countP_cons, List.countP_cons]
    cases hf : f a <;> cases hg : g a <;> simp [hf, hg] <;> omega

theorem countP_self_pair :
    ∀ (l : List (Path × GString)), ((l.map Prod.fst).Nodup) →
      ∀ (q : Path) (L : GString), (q, L) ∈ l → ∀ (g : Path × GString → Bool),
        l.countP (fun pr => decide (pr.1 = q) && g pr) = if g (q, L) then 1 else 0 := by
  intro l
  induction l with
  | nil =>
    intro _ q L hmem
    exact absurd hmem (List.not_mem_nil _)
  | cons a rest ih =>
    intro hnd q L hmem g
    rw [List.map_cons, List.nodup_cons] at hnd
    rw [List.countP_cons]
    rcases List.mem_cons.mp hmem with heq | hmem'
    · have hzero : rest.countP (fun pr => decide (pr.1 = q) && g pr) = 0 := by
        rw [List.countP_eq_zero]
        intro pr hpr
        have : pr.1 ≠ q := by
          intro hc
          apply hnd.1
          rw [show a.1 = q from by rw [← heq], ← hc]
          exact List.mem_map_of_mem Prod.fst hpr
        simp [this]
      rw [hzero]
      rw [← heq]
      simp
    · have hne : a.1 ≠ q := by
        intro hc
        exact hnd.1 (hc ▸ List.mem_map_of_mem Prod.fst hmem')
      rw [ih hnd.2 q L hmem' g]
      simp [hne]

/-- C4: after an active cycle, `number_matches` holds, for every item of
the tree, exactly (1 if the item's own label matches else 0) plus the
number of matching items among its strict descendants — with *no entry*
(absence) when that sum is zero; the root's entry carries the total number
of matches.  The first conjunct certifies that the collected paths are
pairwise distinct, so the `countP` values really count items. -/
theorem c4_accumulate_counts (addr : Path → Nat) (pan : TreeSearchPanel) (t : TNode)
    (s : SearchState) (hvis : pan.visible = true) (htext : pan.text ≠ []) :
    (pathsOf t).Nodup ∧
    (∀ pr ∈ preorderPairs t [],
      ((update_search addr (some pan) (some t) s).1.number_matches pr.1 =
        (if subtreeMatchCount t pan.text pr.1 = 0 then none
         else some (subtreeMatchCount t pan.text pr.1))) ∧
      (subtreeMatchCount t pan.text pr.1 =
        (if (substring_bounds pr.2 pan.text).hit then 1 else 0) +
          (preorderPairs t []).countP
            (fun pr' => decide (pr.1 <+: pr'.1) && (substring_bounds pr'.2 pan.text).hit
              && !(decide (pr'.1 = pr.1))))) ∧
    ((update_search addr (some pan) (some t) s).1.number_matches [] =
      (if (preorderPairs t []).countP (fun pr => (substring_bounds pr.2 pan.text).hit) = 0
       then none
       else some ((preorderPairs t []).countP
         (fun pr => (substring_bounds pr.2 pan.text).hit)))) := by
  have hnm := (update_search_active_props addr pan t s hvis htext).2.2.2.1
  have hnmq : ∀ q, (update_search addr (some pan) (some t) s).1.number_matches q =
      (if subtreeMatchCount t pan.text q = 0 then none
       else some (subtreeMatchCount t pan.text q)) := by
    intro q
    rw [hnm, nm_sorted_eq, nm_canonical_eq]
  refine ⟨pathsOf_nodup t, ?_, ?_⟩
  · intro pr hpr
    refine ⟨hnmq pr.1, ?_⟩
    have hsplit := countP_split (preorderPairs t [])
      (fun pr' => decide (pr.1 <+: pr'.1) && (substring_bounds pr'.2 pan.text).hit)
      (fun pr' => decide (pr'.1 = pr.1))
    have hself : (preorderPairs t []).countP
        (fun pr' => (decide (pr.1 <+: pr'.1) && (substring_bounds pr'.2 pan.text).hit)
          && decide (pr'.1 = pr.1)) =
        (preorderPairs t []).countP
          (fun pr' => decide (pr'.1 = pr.1) && (substring_bounds pr'.2 pan.text).hit) := by
      apply List.countP_congr
      intro x _
      by_cases hx : x.1 = pr.1
      · simp [hx, List.prefix_refl]
      · simp [hx]
    have hone := countP_self_pair (preorderPairs t []) (preorderPairs_fst_nodup t [])
      pr.1 pr.2 (by simpa using hpr)
      (fun pr' => (substring_bounds pr'.2 pan.text).hit)
    unfold subtreeMatchCount
    rw [hsplit, hself, hone]
  · rw [hnmq []]
    unfold subtreeMatchCount
    have : (preorderPairs t []).countP
        (fun pr => decide ([] <+: pr.1) && (substring_bounds pr.2 pan.text).hit) =
        (preorderPairs t []).countP (fun pr => (substring_bounds pr.2 pan.text).hit) := by
      apply List.countP_congr
      intro x _
      simp [List.nil_prefix]
    rw [this]

/-- Witness for C4 on the tree `x(a(a), y)` with query `"a"`: the root's
count is the total 2, the matching inner node holds 2 (itself plus one
descendant), and non-matching subtrees are absent. -/
theorem c4_accumulate_counts_witness :
    ((⟨true, ['a'], TreeSearchMode.HIGHLIGHT⟩ : TreeSearchPanel).visible = true ∧
      (⟨true, ['a'], TreeSearchMode.HIGHLIGHT⟩ : TreeSearchPanel).text ≠ []) ∧
    ((update_search (fun p => p.headD 5 + p.length) (some ⟨true, ['a'], TreeSearchMode.HIGHLIGHT⟩)
        (some (TNode.mk ['x'] [TNode.mk ['a'] [TNode.mk ['a'] []], TNode.mk ['y'] []]))
        {}).1.number_matches [] =
      (if (preorderPairs (TNode.mk ['x'] [TNode.mk ['a'] [TNode.mk ['a'] []], TNode.mk ['y'] []])
            []).countP (fun pr => (substring_bounds pr.2 ['a']).hit) = 0
       then none
       else some ((preorderPairs
            (TNode.mk ['x'] [TNode.mk ['a'] [TNode.mk ['a'] []], TNode.mk ['y'] []])
            []).countP (fun pr => (substring_bounds pr.2 ['a']).hit)))) :=
  ⟨⟨rfl, by decide⟩,
    (c4_accumulate_counts (fun p => p.headD 5 + p.length)
      ⟨true, ['a'], TreeSearchMode.HIGHLIGHT⟩
      (TNode.mk ['x'] [TNode.mk ['a'] [TNode.mk ['a'] []], TNode.mk ['y'] []]) {}
      rfl (by decide)).2.2⟩

/-! ## C5: idempotence of repeated updates -/

theorem cacheHit_clear_filter (t : TNode) (s : SearchState) (p : Path) :
    cacheHit (clear_filter t s) p ↔ cacheHit s p := by
  unfold cacheHit
  rw [(clear_filter_fields t s).2.2.2.2.1, clear_filter_items]
  by_cases hp : p ∈ pathsOf t
  · rw [if_pos hp]
    rw [show effParent { s.items p with visible := true } = effParent (s.items p) from rfl]
  · rw [if_neg hp]

theorem cacheHit_filter_tree (s : SearchState) (p : Path) :
    cacheHit (filter_tree s) p ↔ cacheHit s p := by
  unfold cacheHit
  rw [(filter_tree_fields s).2.2.2.2.1, filter_tree_items]
  by_cases h1 : s.matching_entries.isEmpty
  · rw [if_pos h1]
  · rw [if_neg h1]
    by_cases h2 : p ∈ s.ordered_tree_items ∧ filterHides s p = true
    · rw [if_pos h2]
      rw [show effParent { s.items p with visible := false } = effParent (s.items p) from rfl]
    · rw [if_neg h2]

theorem cacheHit_clean (s : SearchState) (p : Path) (hp : p ∈ s.ordered_tree_items) :
    cacheHit (clean_callable_cache s) p ↔ cacheHit s p := by
  unfold cacheHit
  show (if s.ordered_tree_items.contains p = true then s.callable_cache p else none)
      = some (effParent (s.items p)) ↔
    s.callable_cache p = some (effParent (s.items p))
  rw [show s.ordered_tree_items.contains p = true from List.elem_iff.mpr hp]
  simp only [if_true]

/-- After an active cycle, every tree item with a positive subtree match
count satisfies the cache-hit condition: its cached callable equals the
parent draw method that `_highlight_tree_item` would read from it. -/
theorem update_active_cacheHit (addr : Path → Nat) (pan : TreeSearchPanel) (t : TNode)
    (s : SearchState) (hvis : pan.visible = true) (htext : pan.text ≠ []) :
    ∀ p ∈ update_ordered_tree_items addr t,
      ((update_number_matches (update_matching_entries addr t pan.text) p).getD 0 ≠ 0) →
      cacheHit (update_search addr (some pan) (some t) s).1 p := by
  intro p hp hcount
  rw [update_search_active addr pan t s hvis htext]
  have hordhi : (highlight_tree (clear_filter t (activeBase addr t pan.text s))).1.ordered_tree_items
      = update_ordered_tree_items addr t :=
    ((highlight_tree_fields (clear_filter t (activeBase addr t pan.text s))).2.1).trans
      ((clear_filter_fields t (activeBase addr t pan.text s)).2.1)
  have h1 : cacheHit (highlight_tree (clear_filter t (activeBase addr t pan.text s))).1 p := by
    refine (highlight_tree_cacheHit (clear_filter t (activeBase addr t pan.text s))).2 p ?_ ?_
    · rw [(clear_filter_fields t (activeBase addr t pan.text s)).2.1]
      exact hp
    · rw [(clear_filter_fields t (activeBase addr t pan.text s)).2.2.2.1]
      exact hcount
  by_cases hm : pan.mode = TreeSearchMode.FILTER
  · rw [if_pos hm]
    have h2 : cacheHit { filter_tree
        (highlight_tree (clear_filter t (activeBase addr t pan.text s))).1 with
        was_filtered_recently := true } p :=
      (cacheHit_filter_tree
        (highlight_tree (clear_filter t (activeBase addr t pan.text s))).1 p).mpr h1
    refine (cacheHit_clean _ p ?_).mpr h2
    show p ∈ (filter_tree
      (highlight_tree (clear_filter t (activeBase addr t pan.text s))).1).ordered_tree_items
    rw [(filter_tree_fields (highlight_tree (clear_filter t (activeBase addr t pan.text s))).1).2.1,
      hordhi]
    exact hp
  · rw [if_neg hm]
    by_cases hw : (highlight_tree (clear_filter t (activeBase addr t pan.text s))).1.was_filtered_recently
    · rw [if_pos hw]
      have h2 : cacheHit { clear_filter t
          (highlight_tree (clear_filter t (activeBase addr t pan.text s))).1 with
          was_filtered_recently := false } p :=
        (cacheHit_clear_filter t
          (highlight_tree (clear_filter t (activeBase addr t pan.text s))).1 p).mpr h1
      refine (cacheHit_clean _ p ?_).mpr h2
      show p ∈ (clear_filter t
        (highlight_tree (clear_filter t (activeBase addr t pan.text s))).1).ordered_tree_items
      rw [(clear_filter_fields t (highlight_tree (clear_filter t (activeBase addr t pan.text s))).1).2.1,
        hordhi]
      exact hp
    · rw [if_neg hw]
      refine (cacheHit_clean _ p ?_).mpr h1
      rw [hordhi]
      exact hp

/-- C5: calling `update_search` twice with unchanged panel (query and
mode) and unchanged tree: the second call performs zero overlay
installations — every item with a positive count takes the cache-hit skip
path — and leaves every item's visibility exactly as after the first
call. -/
theorem c5_idempotent (addr : Path → Nat) (pan : TreeSearchPanel) (t : TNode)
    (s : SearchState) (hvis : pan.visible = true) (htext : pan.text ≠ []) :
    ((update_search addr (some pan) (some t)
        (update_search addr (some pan) (some t) s).1).2 = 0) ∧
    (∀ q, (((update_search addr (some pan) (some t)
        (update_search addr (some pan) (some t) s).1).1.items q).visible)
      = (((update_search addr (some pan) (some t) s).1.items q).visible)) := by
  constructor
  · have hskip : highlight_tree (clear_filter t
        (activeBase addr t pan.text (update_search addr (some pan) (some t) s).1)) =
        (clear_filter t
          (activeBase addr t pan.text (update_search addr (some pan) (some t) s).1), 0) := by
      apply highlight_tree_skip
      intro p hp
      rw [(clear_filter_fields t
        (activeBase addr t pan.text (update_search addr (some pan) (some t) s).1)).2.1] at hp
      rw [(clear_filter_fields t
        (activeBase addr t pan.text (update_search addr (some pan) (some t) s).1)).2.2.2.1]
      by_cases hc : (update_number_matches (update_matching_entries addr t pan.text) p).getD 0 = 0
      · exact Or.inl hc
      · right
        have hr1 : cacheHit (update_search addr (some pan) (some t) s).1 p :=
          update_active_cacheHit addr pan t s hvis htext p hp hc
        exact (cacheHit_clear_filter t _ p).mpr hr1
    rw [update_search_active addr pan t
      (update_search addr (some pan) (some t) s).1 hvis htext]
    show (highlight_tree (clear_filter t
        (activeBase addr t pan.text (update_search addr (some pan) (some t) s).1))).2 = 0
    rw [hskip]
  · intro q
    rw [update_visible_closed addr pan t
      (update_search addr (some pan) (some t) s).1 hvis htext q]
    by_cases hq : q ∈ pathsOf t
    · rw [if_pos hq, update_visible_closed addr pan t s hvis htext q, if_pos hq]
    · rw [if_neg hq]

/-- Witness for C5 on the tree `x(a, y)` with a FILTER query. -/
theorem c5_idempotent_witness :
    ((⟨true, ['a'], TreeSearchMode.FILTER⟩ : TreeSearchPanel).visible = true ∧
      (⟨true, ['a'], TreeSearchMode.FILTER⟩ : TreeSearchPanel).text ≠ []) ∧
    ((update_search (fun p => p.headD 3) (some ⟨true, ['a'], TreeSearchMode.FILTER⟩)
        (some (TNode.mk ['x'] [TNode.mk ['a'] [], TNode.mk ['y'] []]))
        (update_search (fun p => p.headD 3) (some ⟨true, ['a'], TreeSearchMode.FILTER⟩)
          (some (TNode.mk ['x'] [TNode.mk ['a'] [], TNode.mk ['y'] []])) {}).1).2 = 0) :=
  ⟨⟨rfl, by decide⟩,
    (c5_idempotent (fun p => p.headD 3) ⟨true, ['a'], TreeSearchMode.FILTER⟩
      (TNode.mk ['x'] [TNode.mk ['a'] [], TNode.mk ['y'] []]) {} rfl (by decide)).1⟩

/-! ## C7: selection advancement -/

/-- C7 counterexample: `ordered_tree_items` is sorted by *pointer value*
(`Vector<TreeItem*>::sort()`), not kept in pre-order.  With the two
matching children allocated so that the second child's pointer is lower,
`_select_next_match` with no current selection picks the second child
`[1]`, not the pre-order-first match `[0]` (the head of the pre-order
matching list). -/
theorem c7_counterexample :
    ((select_next_match
        (update_search (fun p => if p = [0] then 2 else if p = [1] then 1 else 0)
          (some ⟨true, ['a'], TreeSearchMode.HIGHLIGHT⟩)
          (some (TNode.mk ['x'] [TNode.mk ['a'] [], TNode.mk ['a'] []])) {}).1).selected
      = some [1]) ∧
    ((find_matching_entries (TNode.mk ['x'] [TNode.mk ['a'] [], TNode.mk ['a'] []])
        ['a']).head? = some [0]) ∧
    (some ([1] : Path) ≠ some ([0] : Path)) := by
  decide

/-- C7 (amended): `_select_next_match` is a no-op when there are no
matching entries; with no current selection it selects the first matching
entry *in ordered-list order* (the pointer-sorted `ordered_tree_items`,
which coincides with pre-order only when the allocator happened to hand out
pointers in traversal order); otherwise it selects the first matching entry
strictly after the selection's index `k` in the ordered list, wrapping
around to the first matching entry of the whole list when no later one
exists. -/
theorem c7_select_next_match (s : SearchState)
    (hsub : ∀ m ∈ s.matching_entries, m ∈ s.ordered_tree_items) :
    (s.matching_entries = [] → select_next_match s = s) ∧
    (s.matching_entries ≠ [] → s.selected = none →
      (select_next_match s).selected =
        s.ordered_tree_items.find? (fun x => s.matching_entries.contains x)) ∧
    (∀ sel k, s.matching_entries ≠ [] → s.selected = some sel →
      s.ordered_tree_items.findIdx? (fun x => x = sel) = some k →
      ((∃ it, (s.ordered_tree_items.drop (k + 1)).find?
            (fun x => s.matching_entries.contains x) = some it ∧
          (select_next_match s).selected = some it) ∨
        ((s.ordered_tree_items.drop (k + 1)).find?
            (fun x => s.matching_entries.contains x) = none ∧
          ∃ it, s.ordered_tree_items.find? (fun x => s.matching_entries.contains x)
              = some it ∧
            (select_next_match s).selected = some it))) := by
  have hne_empty : ∀ (h : s.matching_entries ≠ []), s.matching_entries.isEmpty = false := by
    intro h
    cases hemp : s.matching_entries.isEmpty
    · rfl
    · exact absurd (List.isEmpty_iff.mp hemp) h
  have hfirst_some : ∀ (h : s.matching_entries ≠ []) (it : Path),
      s.ordered_tree_items.find? (fun x => s.matching_entries.contains x) = some it →
      (select_first_match s).selected = some it := by
    intro h it hit
    unfold select_first_match
    rw [hne_empty h]
    simp only [Bool.false_eq_true, if_false]
    rw [hit]
    rfl
  refine ⟨?_, ?_, ?_⟩
  · intro h
    unfold select_next_match
    rw [show s.matching_entries.isEmpty = true from List.isEmpty_iff.mpr h]
    rfl
  · intro h hsel
    unfold select_next_match
    rw [hne_empty h]
    simp only [Bool.false_eq_true, if_false]
    rw [hsel]
    unfold select_first_match
    rw [hne_empty h]
    simp only [Bool.false_eq_true, if_false]
    cases hf : s.ordered_tree_items.find? (fun x => s.matching_entries.contains x) with
    | none => exact hsel
    | some it => rfl
  · intro sel k h hsel hidx
    unfold select_next_match
    rw [hne_empty h]
    simp only [Bool.false_eq_true, if_false, hsel, hidx]
    have hstart : ((0 : Int) ⊔ ((k : Nat) : Int)).toNat + 1 = k + 1 := by
      simp
    rw [hstart]
    cases hf : (s.ordered_tree_items.drop (k + 1)).find?
        (fun x => s.matching_entries.contains x) with
    | some it =>
      left
      exact ⟨it, rfl, rfl⟩
    | none =>
      right
      refine ⟨rfl, ?_⟩
      have hex : ∃ x ∈ s.ordered_tree_items, s.matching_entries.contains x = true := by
        obtain ⟨m, hm⟩ := List.exists_mem_of_ne_nil s.matching_entries h
        exact ⟨m, hsub m hm, List.elem_iff.mpr hm⟩
      obtain ⟨it, hit⟩ := Option.isSome_iff_exists.mp (List.find?_isSome.mpr hex)
      exact ⟨it, hit, hfirst_some h it hit⟩
/-- Witness for the amended C7, exhibiting the wraparound of the claim's
`[2, 5, 9]` scenario: ten items in ordered-list order, matches at indices
2, 5 and 9, selection at index 9 — the selection wraps to the match at
index 2. -/
theorem c7_select_next_match_witness :
    (∀ m ∈ [[2], [5], [9]],
      m ∈ [[0], [1], [2], [3], [4], [5], [6], [7], [8], ([9] : Path)]) ∧
    (∀ sel k,
      ([[2], [5], [9]] : List Path) ≠ [] →
      (some ([9] : Path)) = some sel →
      ([[0], [1], [2], [3], [4], [5], [6], [7], [8], ([9] : Path)]).findIdx?
        (fun x => x = sel) = some k →
      ((∃ it, (([[0], [1], [2], [3], [4], [5], [6], [7], [8], ([9] : Path)]).drop (k + 1)).find?
            (fun x => ([[2], [5], [9]] : List Path).contains x) = some it ∧
          (select_next_match
            { ordered_tree_items := [[0], [1], [2], [3], [4], [5], [6], [7], [8], [9]],
              matching_entries := [[2], [5], [9]],
              selected := some [9] }).selected = some it) ∨
        ((([[0], [1], [2], [3], [4], [5], [6], [7], [8], ([9] : Path)]).drop (k + 1)).find?
            (fun x => ([[2], [5], [9]] : List Path).contains x) = none ∧
          ∃ it, ([[0], [1], [2], [3], [4], [5], [6], [7], [8], ([9] : Path)]).find?
              (fun x => ([[2], [5], [9]] : List Path).contains x) = some it ∧
            (select_next_match
              { ordered_tree_items := [[0], [1], [2], [3], [4], [5], [6], [7], [8], [9]],
                matching_entries := [[2], [5], [9]],
                selected := some [9] }).selected = some it))) :=
  ⟨by decide,
    (c7_select_next_match
      { ordered_tree_items := [[0], [1], [2], [3], [4], [5], [6], [7], [8], [9]],
        matching_entries := [[2], [5], [9]],
        selected := some [9] }
      (by decide)).2.2⟩

end TreeSearchModel
